import Mathlib

/-!
# Verification of `extract_metrics.py` (DRL-TaskOffloading-MEC)

Shallow embedding of `src/results/data/20250730_225303/extract_metrics.py`.
The script reads up to three plaintext log files, applies three regular
expressions to each, accumulates results in three insertion-ordered
mappings (Python dicts), and writes three CSV files plus one JSON file.

Modelling conventions:
* text is `List Char`; Python's `\w` is modelled over ASCII as
  alphanumeric-or-underscore (the input logs are ASCII);
* Python `float` values are modelled as exact rationals `ℚ`; every value
  the script ever parses is a finite decimal, so no rounding arises for
  the properties below;
* Python dicts are association lists with dict update semantics
  (overwrite in place keeps the original position, fresh keys append);
* a raised `ValueError` (from `float(...)` on a malformed token) is the
  `Err.valueError` component threaded through the pipeline; mutations
  performed before the raise are kept, as with Python's global `metrics`;
* the file system is a map from path strings to contents.
-/

/-- ASCII model of Python regex `\w` (word character). -/
def isWordChar (c : Char) : Bool := c.isAlphanum || c == '_'

/-- Characters that can appear in the energy name token `\w+-?\w*-?\w*`:
word characters and literal hyphens. -/
def isNameChar (c : Char) : Bool := isWordChar c || c == '-'

/-- The character class `[\d\.]` used for the numeric captures. -/
def isFloatChar (c : Char) : Bool := c.isDigit || c == '.'

/-- Does the first character of the list satisfy `p`?  (`false` on `[]`.) -/
def headSat (p : Char → Bool) : List Char → Bool
  | [] => false
  | c :: _ => p c

/-- Numeric value of a decimal digit character. -/
def digitVal (c : Char) : Nat := c.toNat - 48

/-- The decimal digit character for `n % 10`-style values. -/
def digitChar : Nat → Char
  | 0 => '0' | 1 => '1' | 2 => '2' | 3 => '3' | 4 => '4'
  | 5 => '5' | 6 => '6' | 7 => '7' | 8 => '8' | _ => '9'

/-- Value of a digit string, as Python `int(...)` computes it
(most significant digit first; leading zeros allowed). -/
def digitsToNat (s : List Char) : Nat :=
  s.foldl (fun a c => 10 * a + digitVal c) 0

/-- Fuelled decimal rendering of a natural number (most significant first). -/
def natToDigitsF : Nat → Nat → List Char
  | 0, _ => []
  | f + 1, n =>
    if n < 10 then [digitChar n]
    else natToDigitsF f (n / 10) ++ [digitChar (n % 10)]

/-- Decimal rendering of a natural number, e.g. `natToDigits 69 = "69"`. -/
def natToDigits (n : Nat) : List Char := natToDigitsF (n + 1) n

/-- Fuelled `p`-adic valuation of `n` (number of times `p` divides `n`). -/
def padicF : Nat → Nat → Nat → Nat
  | 0, _, _ => 0
  | f + 1, p, n => if 1 < p ∧ p ∣ n ∧ 0 < n then padicF f p (n / p) + 1 else 0

/-- Number of times `p` divides `n` (0 for `n = 0`). -/
def padic (p n : Nat) : Nat := padicF n p n

/-- Python `float(token)` for a token drawn from the class `[\d\.]+`:
defined (with its exact decimal value) iff the token has at least one
digit and at most one dot; `none` models the raised `ValueError`
(e.g. on `"1.2.3"` or `".."`). -/
def parsePyFloat (s : List Char) : Option ℚ :=
  if s.count '.' ≤ 1 ∧ 0 < s.countP (·.isDigit) then
    some ((digitsToNat (s.takeWhile (· ≠ '.')) : ℚ)
      + (digitsToNat ((s.dropWhile (· ≠ '.')).drop 1) : ℚ)
        / 10 ^ ((s.dropWhile (· ≠ '.')).drop 1).length)
  else none

/-- `re.search` for a pattern `LITERAL(CLASS+)`: scan left to right, and at
the first position where the literal occurs immediately followed by at
least one `CLASS` character, return the greedy (maximal) run of `CLASS`
characters after the literal.  This is exactly the semantics of
`re.search(r'EXECUTION TIME : (\d+)', ...)` and
`re.search(r'Total network usage = ([\d\.]+)', ...)`. -/
def findAfter (lit : List Char) (p : Char → Bool) : List Char → Option (List Char)
  | [] => none
  | c :: cs =>
    if lit.isPrefixOf (c :: cs) && headSat p ((c :: cs).drop lit.length) then
      some (((c :: cs).drop lit.length).takeWhile p)
    else
      findAfter lit p cs

/-- The literal part of `EXECUTION TIME : (\d+)`. -/
def execLit : List Char := "EXECUTION TIME : ".toList

/-- The literal part of `(\w+-?\w*-?\w*) : Energy Consumed = ([\d\.]+)`
between the two capture groups. -/
def energyLit : List Char := " : Energy Consumed = ".toList

/-- The literal part of `Total network usage = ([\d\.]+)`. -/
def netLit : List Char := "Total network usage = ".toList

/-- Can the group `\w+-?\w*-?\w*` match this entire run of name
characters?  Exactly when the run starts with a word character and
contains at most two hyphens. -/
def groupOk (run : List Char) : Bool :=
  match run with
  | [] => false
  | c :: _ => isWordChar c && decide (run.count '-' ≤ 2)

/-- One attempted match of `(\w+-?\w*-?\w*) : Energy Consumed = ([\d\.]+)`
at the current position.  The name group is followed immediately by
`" : "`, whose space cannot be a name character, so the group must cover
the whole maximal run of name characters starting here; the match
succeeds iff that run is group-matchable, the literal follows, and at
least one `[\d\.]` character follows the literal.  Returns the two
captured groups and the rest of the text after the match. -/
def tryEnergy (cs : List Char) : Option ((List Char × List Char) × List Char) :=
  if groupOk (cs.takeWhile isNameChar) then
    if energyLit.isPrefixOf (cs.dropWhile isNameChar) then
      if (((cs.dropWhile isNameChar).drop energyLit.length).takeWhile isFloatChar).isEmpty then
        none
      else
        some ((cs.takeWhile isNameChar,
            ((cs.dropWhile isNameChar).drop energyLit.length).takeWhile isFloatChar),
          ((cs.dropWhile isNameChar).drop energyLit.length).dropWhile isFloatChar)
    else none
  else none

/-- Fuelled `re.findall` scan for the energy pattern: try a match at the
current position; on success record the captured groups and resume after
the match, otherwise advance one character. -/
def scanEnergyF : Nat → List Char → List (List Char × List Char)
  | 0, _ => []
  | f + 1, cs =>
    match tryEnergy cs with
    | some (pr, rest) => pr :: scanEnergyF f rest
    | none =>
      match cs with
      | [] => []
      | _ :: t => scanEnergyF f t

/-- `re.findall(r'(\w+-?\w*-?\w*) : Energy Consumed = ([\d\.]+)', ...)`:
the list of (name, number-token) captured pairs, left to right,
non-overlapping. -/
def scanEnergy (cs : List Char) : List (List Char × List Char) :=
  scanEnergyF cs.length cs

/-- Parse every captured number token; `none` models the `ValueError`
raised by `sum(float(energy) for _, energy in energy_matches)` when some
token is not a valid float. -/
def parseAll : List (List Char × List Char) → Option (List ℚ)
  | [] => some []
  | m :: t =>
    match parsePyFloat m.2, parseAll t with
    | some q, some qs => some (q :: qs)
    | _, _ => none

/-- A Python numeric value as stored in the metrics dicts: `int` for
execution times, `float` for energy and network values. -/
inductive PyNum where
  | int : ℤ → PyNum
  | float : ℚ → PyNum
deriving DecidableEq

/-- The global `metrics` dict: three insertion-ordered mappings from
simulation-type label to numeric value. -/
structure Metrics where
  execution_time : List (String × PyNum)
  energy_consumption : List (String × PyNum)
  network_usage : List (String × PyNum)
deriving DecidableEq

/-- `metrics = {'execution_time': {}, 'energy_consumption': {}, 'network_usage': {}}`. -/
def initMetrics : Metrics := ⟨[], [], []⟩

/-- Python dict assignment `d[k] = v`: overwrite in place if the key is
present (keeping its position), otherwise append at the end. -/
def insertA (m : List (String × PyNum)) (k : String) (v : PyNum) : List (String × PyNum) :=
  if m.any (fun p => decide (p.1 = k)) then
    m.map (fun p => if p.1 = k then (k, v) else p)
  else
    m ++ [(k, v)]

/-- Python dict lookup `d[k]` (as an option). -/
def lookupVal (m : List (String × PyNum)) (k : String) : Option PyNum :=
  match m with
  | [] => none
  | (k', v) :: t => if k' = k then some v else lookupVal t k

/-- The ValueError raised by `float(...)` on a malformed token. -/
inductive Err where
  | valueError
deriving DecidableEq

/-- Lines 23-25: `re.search(r'EXECUTION TIME : (\d+)', content)`, and on a
match store `int(group(1))` under the label. -/
def stepTime (c : List Char) (label : String) (m : Metrics) : Metrics :=
  match findAfter execLit Char.isDigit c with
  | some tok => { m with execution_time := insertA m.execution_time label (.int (digitsToNat tok)) }
  | none => m

/-- Lines 28-30: `re.findall(...)`, sum the parsed floats, and store the
total unconditionally; raises ValueError if some token is malformed. -/
def stepEnergy (c : List Char) (label : String) (m : Metrics) : Metrics × Option Err :=
  match parseAll (scanEnergy c) with
  | none => (m, some .valueError)
  | some qs => ({ m with energy_consumption := insertA m.energy_consumption label (.float qs.sum) }, none)

/-- Lines 33-35: `re.search(r'Total network usage = ([\d\.]+)', content)`,
and on a match store `float(group(1))` under the label. -/
def stepNetwork (c : List Char) (label : String) (m : Metrics) : Metrics × Option Err :=
  match findAfter netLit isFloatChar c with
  | none => (m, none)
  | some tok =>
    match parsePyFloat tok with
    | none => (m, some .valueError)
    | some q => ({ m with network_usage := insertA m.network_usage label (.float q) }, none)

/-- `extract_metrics(filename, simulation_type)`, applied to the file's
content: execution time, then energy, then network usage; a ValueError
aborts the remaining steps but keeps the mutations already made. -/
def extract_metrics (c : List Char) (label : String) (m : Metrics) : Metrics × Option Err :=
  match stepEnergy c label (stepTime c label m) with
  | (m2, some e) => (m2, some e)
  | (m2, none) => stepNetwork c label m2

/-- One `if os.path.exists(...): extract_metrics(...)` block: a missing
file (`none`) is skipped silently; once an exception has been raised the
remaining blocks never run. -/
def processFile (inp : Option (List Char)) (label : String) :
    Metrics × Option Err → Metrics × Option Err
  | (m, some e) => (m, some e)
  | (m, none) =>
    match inp with
    | none => (m, none)
    | some c => extract_metrics c label m

/-- Lines 38-45: process `simple_drl_results.txt` as `"Simple"`, then
`learnable_drl_results.txt` as `"Learnable"`, then `full_drl_results.txt`
as `"Full"`. -/
def runPipeline (s l f : Option (List Char)) : Metrics × Option Err :=
  processFile f "Full" (processFile l "Learnable" (processFile s "Simple" (initMetrics, none)))

/-- The metrics states reached inside one `extract_metrics` call: after
the execution-time update, after the energy update, and after the
network-usage update (truncated at a raised ValueError). -/
def extractStates (c : List Char) (label : String) (m : Metrics) : List Metrics :=
  stepTime c label m ::
    match stepEnergy c label (stepTime c label m) with
    | (m2, some _) => [m2]
    | (m2, none) => [m2, (stepNetwork c label m2).1]

/-- The metrics states contributed by one `if os.path.exists` block. -/
def fileStates (inp : Option (List Char)) (label : String) :
    Metrics × Option Err → List Metrics
  | (_, some _) => []
  | (m, none) =>
    match inp with
    | none => []
    | some c => extractStates c label m

/-- Every metrics state reached during a run: the initial state and each
state after a dict mutation, in execution order. -/
def runStates (s l f : Option (List Char)) : List Metrics :=
  initMetrics ::
    (fileStates s "Simple" (initMetrics, none) ++
      fileStates l "Learnable" (processFile s "Simple" (initMetrics, none)) ++
      fileStates f "Full" (processFile l "Learnable" (processFile s "Simple" (initMetrics, none))))

/-- The three labels in processing order. -/
def canonLabels : List String := ["Simple", "Learnable", "Full"]

/-- `q` is a finite decimal (every value Python's `float(...)` produces
from a `[\d\.]+` token, and every sum of such values, is one). -/
def IsDecimal (q : ℚ) : Prop := ∃ (n : ℤ) (k : ℕ), q = (n : ℚ) / 10 ^ k

/-- Values the script can actually store: non-negative integers
(execution times) and non-negative finite decimals (energy, network). -/
def GoodVal : PyNum → Prop
  | .int n => 0 ≤ n
  | .float q => 0 ≤ q ∧ IsDecimal q

/-- The decimal exponent of `q`: with `q.den = 2^a * 5^b` (true of every
finite decimal in lowest terms), the least `k` with `q * 10^k` integral. -/
def decExp (q : ℚ) : ℕ := max (padic 2 q.den) (padic 5 q.den)

/-- Left-pad a digit string with zeros to length `k`. -/
def padZeros (k : ℕ) (ds : List Char) : List Char :=
  List.replicate (k - ds.length) '0' ++ ds

/-- Python `repr(float)` restricted to finite decimals (magnitude only):
the shortest plain decimal form, always containing a dot, e.g.
`4 ↦ "4.0"`, `3/2 ↦ "1.5"`.  This is what both `str()` (for the CSV
rows) and `json.dump` emit for the floats this script stores. -/
def renderFloat (q : ℚ) : List Char :=
  if decExp q = 0 then
    natToDigits (q * 10 ^ decExp q).num.natAbs ++ ['.', '0']
  else
    natToDigits ((q * 10 ^ decExp q).num.natAbs / 10 ^ decExp q) ++
      '.' :: padZeros (decExp q) (natToDigits ((q * 10 ^ decExp q).num.natAbs % 10 ^ decExp q))

/-- Serialized form of a stored value, as written to CSV and JSON. -/
def renderNum : PyNum → List Char
  | .int n => (if n < 0 then ['-'] else []) ++ natToDigits n.natAbs
  | .float q => (if q < 0 then ['-'] else []) ++ renderFloat q

/-- `json.load`'s treatment of an unsigned number token: a token with a
dot parses as a Python float, otherwise as a Python int. -/
def loadNumCore (s : List Char) : PyNum :=
  if s.contains '.' then
    match parsePyFloat s with
    | some q => .float q
    | none => .float 0
  else .int (digitsToNat s)

/-- `json.load`'s treatment of a number token, sign included. -/
def loadNum (s : List Char) : PyNum :=
  if s.head? = some '-' then
    match loadNumCore (s.drop 1) with
    | .int n => .int (-n)
    | .float q => .float (-q)
  else loadNumCore s

/-- A stored value as the CSV writer's `str(...)` renders it. -/
def renderNumS (v : PyNum) : String := String.mk (renderNum v)

/-- Lines 48-53: the rows of one metric category's CSV file: the header
`['Simulation Type', metric_name]`, then one row per mapping entry in
insertion order. -/
def csvRows (name : String) (data : List (String × PyNum)) : List (List String) :=
  ["Simulation Type", name] :: data.map (fun p => [p.1, renderNumS p.2])

/-- One CSV record as `csv.writer` emits it: comma-joined, CRLF-terminated
(no quoting arises: no field contains a comma, quote or newline). -/
def csvLine (fields : List String) : String :=
  String.intercalate "," fields ++ "\r\n"

/-- The full byte content of one metric category's CSV file. -/
def csvContent (name : String) (data : List (String × PyNum)) : String :=
  String.join ((csvRows name data).map csvLine)

/-- `json.dump(..., indent=2)` rendering of one inner label→value dict. -/
def jsonInnerDict (data : List (String × PyNum)) : String :=
  match data with
  | [] => "\x7b\x7d"
  | _ =>
    "\x7b\n" ++
      String.intercalate ",\n" (data.map (fun p => "    \"" ++ p.1 ++ "\": " ++ renderNumS p.2)) ++
      "\n  \x7d"

/-- The full byte content of `all_metrics.json`: the three categories in
the dict's insertion order, pretty-printed with 2-space indentation. -/
def jsonContent (m : Metrics) : String :=
  "\x7b\n" ++
    String.intercalate ",\n"
      [ "  \"execution_time\": " ++ jsonInnerDict m.execution_time,
        "  \"energy_consumption\": " ++ jsonInnerDict m.energy_consumption,
        "  \"network_usage\": " ++ jsonInnerDict m.network_usage ] ++
    "\n\x7d"

/-- `results_dir = "./results/data/20250730_225303"`. -/
def resultsDir : String := "./results/data/20250730_225303"

/-- Input path of the `Simple` log. -/
def simplePath : String := resultsDir ++ "/simple_drl_results.txt"

/-- Input path of the `Learnable` log. -/
def learnablePath : String := resultsDir ++ "/learnable_drl_results.txt"

/-- Input path of the `Full` log. -/
def fullPath : String := resultsDir ++ "/full_drl_results.txt"

/-- The file system: a map from path to file content.  A path maps to
`none` when `os.path.exists` is false for it. -/
def FS : Type := String → Option String

/-- Reading a file's full text content. -/
def readFile (fs : FS) (p : String) : Option (List Char) :=
  (fs p).map String.toList

/-- Lines 48-57: write the three CSV files and `all_metrics.json`,
overwriting whatever the paths held before. -/
def writeOutputs (m : Metrics) (fs : FS) : FS :=
  Function.update
    (Function.update
      (Function.update
        (Function.update fs
          (resultsDir ++ "/execution_time.csv")
          (some (csvContent "execution_time" m.execution_time)))
        (resultsDir ++ "/energy_consumption.csv")
        (some (csvContent "energy_consumption" m.energy_consumption)))
      (resultsDir ++ "/network_usage.csv")
      (some (csvContent "network_usage" m.network_usage)))
    (resultsDir ++ "/all_metrics.json")
    (some (jsonContent m))

/-- One whole run of the script as a file-system transformer: read the
three optional input files, extract, and write the four outputs — unless
a ValueError was raised, in which case the run aborts before any output
file is opened. -/
def runOnFS (fs : FS) : FS :=
  match runPipeline (readFile fs simplePath) (readFile fs learnablePath) (readFile fs fullPath) with
  | (_, some _) => fs
  | (m, none) => writeOutputs m fs

/-- A file system holding only a `Simple` input log whose network-usage
line carries the malformed numeric token `1.2.3`. -/
def fsC9 : FS :=
  fun p => if p = simplePath then some "Total network usage = 1.2.3" else none

/-- The empty file system: no input file exists. -/
def emptyFS : FS := fun _ => none

/-- Every value stored in the mapping satisfies `GoodVal`. -/
def AllGood (d : List (String × PyNum)) : Prop := ∀ kv ∈ d, GoodVal kv.2

/-- All three mappings have their keys (in order) a sublist of `L`.
`KeysUpTo m canonLabels` says: keys are drawn from Simple/Learnable/Full,
each occurs at most once, and they appear in processing order. -/
def KeysUpTo (m : Metrics) (L : List String) : Prop :=
  List.Sublist (m.execution_time.map Prod.fst) L
    ∧ List.Sublist (m.energy_consumption.map Prod.fst) L
    ∧ List.Sublist (m.network_usage.map Prod.fst) L

/-! ## Dictionary lemmas -/

theorem lookupVal_overwrite (m : List (String × PyNum)) (k : String) (v : PyNum)
    (h : m.any (fun p => decide (p.1 = k)) = true) :
    lookupVal (m.map (fun p => if p.1 = k then (k, v) else p)) k = some v := by
  induction m with
  | nil => simp at h
  | cons p t ih =>
    obtain ⟨k1, v1⟩ := p
    simp only [List.any_cons, Bool.or_eq_true, decide_eq_true_eq] at h
    simp only [List.map_cons]
    by_cases hp : k1 = k
    · rw [if_pos hp]
      simp [lookupVal]
    · rw [if_neg hp]
      have ht : t.any (fun p => decide (p.1 = k)) = true := by
        rcases h with h | h
        · exact absurd h hp
        · simpa using h
      simp [lookupVal, hp, ih ht]

theorem lookupVal_append_self (m : List (String × PyNum)) (k : String) (v : PyNum)
    (h : m.any (fun p => decide (p.1 = k)) = false) :
    lookupVal (m ++ [(k, v)]) k = some v := by
  induction m with
  | nil => simp [lookupVal]
  | cons p t ih =>
    obtain ⟨k1, v1⟩ := p
    simp only [List.any_cons, Bool.or_eq_false_iff, decide_eq_false_iff_not] at h
    simp [lookupVal, h.1, ih (by simpa using h.2)]

theorem lookupVal_insertA_self (m : List (String × PyNum)) (k : String) (v : PyNum) :
    lookupVal (insertA m k v) k = some v := by
  unfold insertA
  cases h : m.any (fun p => decide (p.1 = k)) with
  | true => simpa [h] using lookupVal_overwrite m k v h
  | false => simpa [h] using lookupVal_append_self m k v h

theorem lookupVal_map_ne (t : List (String × PyNum)) (k k' : String) (v : PyNum)
    (h : k' ≠ k) :
    lookupVal (t.map (fun p => if p.1 = k then (k, v) else p)) k' = lookupVal t k' := by
  induction t with
  | nil => rfl
  | cons p t ih =>
    obtain ⟨k1, v1⟩ := p
    simp only [List.map_cons]
    by_cases hp : k1 = k
    · rw [if_pos hp]
      have h1 : ¬(k = k') := fun hh => h hh.symm
      have h2 : ¬(k1 = k') := hp ▸ h1
      simp [lookupVal, h1, h2, ih]
    · rw [if_neg hp]
      by_cases hp2 : k1 = k' <;> simp [lookupVal, hp2, ih]

theorem lookupVal_append_ne (t : List (String × PyNum)) (k k' : String) (v : PyNum)
    (h : k' ≠ k) :
    lookupVal (t ++ [(k, v)]) k' = lookupVal t k' := by
  induction t with
  | nil =>
    have h1 : ¬(k = k') := fun hh => h hh.symm
    simp [lookupVal, h1]
  | cons p t ih =>
    obtain ⟨k1, v1⟩ := p
    by_cases hp : k1 = k' <;> simp [lookupVal, hp, ih]

theorem lookupVal_insertA_ne (m : List (String × PyNum)) (k k' : String) (v : PyNum)
    (h : k' ≠ k) : lookupVal (insertA m k v) k' = lookupVal m k' := by
  unfold insertA
  split
  · exact lookupVal_map_ne m k k' v h
  · exact lookupVal_append_ne m k k' v h

theorem insertA_map_fst_not_mem (m : List (String × PyNum)) (k : String) (v : PyNum)
    (h : k ∉ m.map Prod.fst) :
    (insertA m k v).map Prod.fst = m.map Prod.fst ++ [k] := by
  have hany : m.any (fun p => decide (p.1 = k)) = false := by
    rw [List.any_eq_false]
    intro p hp
    simp only [decide_eq_true_eq]
    intro hk
    exact h (List.mem_map.mpr ⟨p, hp, hk⟩)
  simp [insertA, hany]

/-! ## Expansion lemmas for the three extraction steps -/

theorem stepTime_ok (c : List Char) (label : String) (m : Metrics) (tok : List Char)
    (h : findAfter execLit Char.isDigit c = some tok) :
    stepTime c label m
      = { m with execution_time := insertA m.execution_time label (.int (digitsToNat tok)) } := by
  simp [stepTime, h]

theorem stepTime_skip (c : List Char) (label : String) (m : Metrics)
    (h : findAfter execLit Char.isDigit c = none) :
    stepTime c label m = m := by
  simp [stepTime, h]

theorem stepEnergy_ok (c : List Char) (label : String) (m : Metrics) (qs : List ℚ)
    (h : parseAll (scanEnergy c) = some qs) :
    stepEnergy c label m
      = ({ m with energy_consumption := insertA m.energy_consumption label (.float qs.sum) },
          none) := by
  simp [stepEnergy, h]

theorem stepEnergy_err (c : List Char) (label : String) (m : Metrics)
    (h : parseAll (scanEnergy c) = none) :
    stepEnergy c label m = (m, some .valueError) := by
  simp [stepEnergy, h]

theorem stepNetwork_skip (c : List Char) (label : String) (m : Metrics)
    (h : findAfter netLit isFloatChar c = none) :
    stepNetwork c label m = (m, none) := by
  simp [stepNetwork, h]

theorem stepNetwork_ok (c : List Char) (label : String) (m : Metrics)
    (tok : List Char) (q : ℚ)
    (hN : findAfter netLit isFloatChar c = some tok)
    (hq : parsePyFloat tok = some q) :
    stepNetwork c label m
      = ({ m with network_usage := insertA m.network_usage label (.float q) }, none) := by
  simp [stepNetwork, hN, hq]

theorem stepNetwork_err (c : List Char) (label : String) (m : Metrics) (tok : List Char)
    (hN : findAfter netLit isFloatChar c = some tok)
    (hq : parsePyFloat tok = none) :
    stepNetwork c label m = (m, some .valueError) := by
  simp [stepNetwork, hN, hq]

/-- The fields `stepTime` leaves alone. -/
theorem stepTime_other (c : List Char) (label : String) (m : Metrics) :
    (stepTime c label m).energy_consumption = m.energy_consumption
      ∧ (stepTime c label m).network_usage = m.network_usage := by
  unfold stepTime
  cases findAfter execLit Char.isDigit c <;> exact ⟨rfl, rfl⟩

/-- The fields `stepEnergy` leaves alone. -/
theorem stepEnergy_other (c : List Char) (label : String) (m : Metrics) :
    (stepEnergy c label m).1.execution_time = m.execution_time
      ∧ (stepEnergy c label m).1.network_usage = m.network_usage := by
  unfold stepEnergy
  cases parseAll (scanEnergy c) <;> exact ⟨rfl, rfl⟩

/-- The fields `stepNetwork` leaves alone. -/
theorem stepNetwork_other (c : List Char) (label : String) (m : Metrics) :
    (stepNetwork c label m).1.execution_time = m.execution_time
      ∧ (stepNetwork c label m).1.energy_consumption = m.energy_consumption := by
  unfold stepNetwork
  cases h : findAfter netLit isFloatChar c with
  | none => exact ⟨rfl, rfl⟩
  | some tok =>
    cases hq : parsePyFloat tok <;> simp [hq]

/-! ## Lemmas about `extract_metrics` -/

theorem extract_execution (c : List Char) (label : String) (m : Metrics) :
    (extract_metrics c label m).1.execution_time = (stepTime c label m).execution_time := by
  unfold extract_metrics
  cases hE : stepEnergy c label (stepTime c label m) with
  | mk m2 e =>
    have h2 : m2.execution_time = (stepTime c label m).execution_time := by
      have h3 := (stepEnergy_other c label (stepTime c label m)).1
      rw [hE] at h3
      exact h3
    cases e with
    | none =>
      show (stepNetwork c label m2).1.execution_time = (stepTime c label m).execution_time
      rw [(stepNetwork_other c label m2).1, h2]
    | some e => exact h2

theorem extract_energy_ok (c : List Char) (label : String) (m : Metrics) (qs : List ℚ)
    (h : parseAll (scanEnergy c) = some qs) :
    (extract_metrics c label m).1.energy_consumption
      = insertA m.energy_consumption label (.float qs.sum) := by
  unfold extract_metrics
  rw [stepEnergy_ok c label (stepTime c label m) qs h]
  show (stepNetwork c label _).1.energy_consumption = _
  rw [(stepNetwork_other c label _).2]
  show insertA (stepTime c label m).energy_consumption label (.float qs.sum) = _
  rw [(stepTime_other c label m).1]

theorem extract_energy_err (c : List Char) (label : String) (m : Metrics)
    (h : parseAll (scanEnergy c) = none) :
    (extract_metrics c label m).1.energy_consumption = m.energy_consumption
      ∧ (extract_metrics c label m).2 = some .valueError := by
  unfold extract_metrics
  rw [stepEnergy_err c label (stepTime c label m) h]
  exact ⟨(stepTime_other c label m).1, rfl⟩

theorem extract_network_ok (c : List Char) (label : String) (m : Metrics)
    (qs : List ℚ) (tok : List Char) (q : ℚ)
    (hE : parseAll (scanEnergy c) = some qs)
    (hN : findAfter netLit isFloatChar c = some tok)
    (hq : parsePyFloat tok = some q) :
    (extract_metrics c label m).1.network_usage
        = insertA m.network_usage label (.float q)
      ∧ (extract_metrics c label m).2 = none := by
  unfold extract_metrics
  rw [stepEnergy_ok c label (stepTime c label m) qs hE]
  show ((stepNetwork c label _).1.network_usage = _) ∧ ((stepNetwork c label _).2 = _)
  rw [stepNetwork_ok c label _ tok q hN hq]
  refine ⟨?_, rfl⟩
  show insertA _ label (.float q) = _
  have h1 : ({ stepTime c label m with
      energy_consumption :=
        insertA (stepTime c label m).energy_consumption label (.float qs.sum) }).network_usage
      = m.network_usage := (stepTime_other c label m).2
  rw [h1]

theorem extract_network_none (c : List Char) (label : String) (m : Metrics)
    (hN : findAfter netLit isFloatChar c = none) :
    (extract_metrics c label m).1.network_usage = m.network_usage := by
  unfold extract_metrics
  cases hE : stepEnergy c label (stepTime c label m) with
  | mk m2 e =>
    have h2 : m2.network_usage = m.network_usage := by
      have h3 := (stepEnergy_other c label (stepTime c label m)).2
      rw [hE] at h3
      rw [h3, (stepTime_other c label m).2]
    cases e with
    | none =>
      show (stepNetwork c label m2).1.network_usage = m.network_usage
      rw [stepNetwork_skip c label m2 hN]
      exact h2
    | some e => exact h2

theorem extract_no_error (c : List Char) (label : String) (m : Metrics) (qs : List ℚ)
    (hE : parseAll (scanEnergy c) = some qs)
    (hN : findAfter netLit isFloatChar c = none) :
    (extract_metrics c label m).2 = none := by
  unfold extract_metrics
  rw [stepEnergy_ok c label (stepTime c label m) qs hE]
  show (stepNetwork c label _).2 = none
  rw [stepNetwork_skip c label _ hN]

theorem extract_network_err (c : List Char) (label : String) (m : Metrics)
    (qs : List ℚ) (tok : List Char)
    (hE : parseAll (scanEnergy c) = some qs)
    (hN : findAfter netLit isFloatChar c = some tok)
    (hq : parsePyFloat tok = none) :
    (extract_metrics c label m).2 = some .valueError := by
  unfold extract_metrics
  rw [stepEnergy_ok c label (stepTime c label m) qs hE]
  show (stepNetwork c label _).2 = _
  rw [stepNetwork_err c label _ tok hN hq]

/-- Looking up any other label is unaffected by `extract_metrics`. -/
theorem extract_lookup_ne (c : List Char) (label : String) (m : Metrics) (lab : String)
    (h : lab ≠ label) :
    lookupVal ((extract_metrics c label m).1).execution_time lab
        = lookupVal m.execution_time lab
      ∧ lookupVal ((extract_metrics c label m).1).energy_consumption lab
        = lookupVal m.energy_consumption lab
      ∧ lookupVal ((extract_metrics c label m).1).network_usage lab
        = lookupVal m.network_usage lab := by
  refine ⟨?_, ?_, ?_⟩
  · rw [extract_execution]
    unfold stepTime
    cases hT : findAfter execLit Char.isDigit c with
    | none => rfl
    | some tok =>
      show lookupVal (insertA m.execution_time label _) lab = _
      exact lookupVal_insertA_ne _ label lab _ h
  · cases hE : parseAll (scanEnergy c) with
    | none => rw [(extract_energy_err c label m hE).1]
    | some qs =>
      rw [extract_energy_ok c label m qs hE]
      exact lookupVal_insertA_ne _ label lab _ h
  · cases hN : findAfter netLit isFloatChar c with
    | none => rw [extract_network_none c label m hN]
    | some tok =>
      cases hE : parseAll (scanEnergy c) with
      | none =>
        unfold extract_metrics
        rw [stepEnergy_err c label (stepTime c label m) hE]
        show lookupVal (stepTime c label m).network_usage lab = _
        rw [(stepTime_other c label m).2]
      | some qs =>
        cases hq : parsePyFloat tok with
        | none =>
          unfold extract_metrics
          rw [stepEnergy_ok c label (stepTime c label m) qs hE]
          show lookupVal (stepNetwork c label _).1.network_usage lab = _
          rw [stepNetwork_err c label _ tok hN hq]
          show lookupVal ({ stepTime c label m with
            energy_consumption := _ }).network_usage lab = _
          rw [(stepTime_other c label m).2]
        | some q =>
          rw [(extract_network_ok c label m qs tok q hE hN hq).1]
          exact lookupVal_insertA_ne _ label lab _ h

/-! ## Key-tracking through the pipeline -/

theorem keysUpTo_mono (m : Metrics) (L L' : List String)
    (h : KeysUpTo m L) (hL : List.Sublist L L') : KeysUpTo m L' :=
  ⟨h.1.trans hL, h.2.1.trans hL, h.2.2.trans hL⟩

theorem insertA_keys_sub (d : List (String × PyNum)) (L : List String) (lab : String)
    (v : PyNum) (h : List.Sublist (d.map Prod.fst) L) (hlab : lab ∉ L) :
    List.Sublist ((insertA d lab v).map Prod.fst) (L ++ [lab]) := by
  have hnm : lab ∉ d.map Prod.fst := fun hm => hlab (h.subset hm)
  rw [insertA_map_fst_not_mem d lab v hnm]
  exact List.Sublist.append h (List.Sublist.refl [lab])

theorem sublist_snoc (l L : List String) (a : String) (h : List.Sublist l L) : List.Sublist l (L ++ [a]) :=
  h.trans (List.sublist_append_left L [a])

theorem stepTime_keysUpTo (c : List Char) (lab : String) (m : Metrics) (L : List String)
    (h : KeysUpTo m L) (hlab : lab ∉ L) : KeysUpTo (stepTime c lab m) (L ++ [lab]) := by
  unfold stepTime
  cases findAfter execLit Char.isDigit c with
  | none => exact keysUpTo_mono m L _ h (List.sublist_append_left L [lab])
  | some tok =>
    exact ⟨insertA_keys_sub _ L lab _ h.1 hlab,
      sublist_snoc _ L lab h.2.1, sublist_snoc _ L lab h.2.2⟩

theorem stepEnergy_keysUpTo (c : List Char) (lab : String) (m : Metrics) (L : List String)
    (h : KeysUpTo m L) (hlab : lab ∉ L) : KeysUpTo (stepEnergy c lab m).1 (L ++ [lab]) := by
  unfold stepEnergy
  cases parseAll (scanEnergy c) with
  | none => exact keysUpTo_mono m L _ h (List.sublist_append_left L [lab])
  | some qs =>
    exact ⟨sublist_snoc _ L lab h.1,
      insertA_keys_sub _ L lab _ h.2.1 hlab, sublist_snoc _ L lab h.2.2⟩

theorem stepNetwork_keysUpTo (c : List Char) (lab : String) (m : Metrics) (L : List String)
    (h : KeysUpTo m L) (hlab : lab ∉ L) : KeysUpTo (stepNetwork c lab m).1 (L ++ [lab]) := by
  cases hN : findAfter netLit isFloatChar c with
  | none =>
    rw [stepNetwork_skip c lab m hN]
    exact keysUpTo_mono m L _ h (List.sublist_append_left L [lab])
  | some tok =>
    cases hq : parsePyFloat tok with
    | none =>
      rw [stepNetwork_err c lab m tok hN hq]
      exact keysUpTo_mono m L _ h (List.sublist_append_left L [lab])
    | some q =>
      rw [stepNetwork_ok c lab m tok q hN hq]
      exact ⟨sublist_snoc _ L lab h.1, sublist_snoc _ L lab h.2.1,
        insertA_keys_sub _ L lab _ h.2.2 hlab⟩

/-- The keys of intermediate states inside one `extract_metrics` call. -/
theorem extractStates_keysUpTo (c : List Char) (lab : String) (m : Metrics) (L : List String)
    (h : KeysUpTo m L) (hlab : lab ∉ L) :
    ∀ x ∈ extractStates c lab m, KeysUpTo x (L ++ [lab]) := by
  have h1 : KeysUpTo (stepTime c lab m) (L ++ [lab]) := stepTime_keysUpTo c lab m L h hlab
  have hm1e : (stepTime c lab m).energy_consumption = m.energy_consumption :=
    (stepTime_other c lab m).1
  have h2 : KeysUpTo (stepEnergy c lab (stepTime c lab m)).1 (L ++ [lab]) := by
    unfold stepEnergy
    cases parseAll (scanEnergy c) with
    | none => exact h1
    | some qs =>
      refine ⟨h1.1, ?_, h1.2.2⟩
      show List.Sublist ((insertA (stepTime c lab m).energy_consumption lab _).map Prod.fst) _
      rw [hm1e]
      exact insertA_keys_sub _ L lab _ h.2.1 hlab
  have h3 : KeysUpTo (stepNetwork c lab (stepEnergy c lab (stepTime c lab m)).1).1
      (L ++ [lab]) := by
    have hm2n : (stepEnergy c lab (stepTime c lab m)).1.network_usage = m.network_usage := by
      rw [(stepEnergy_other c lab _).2, (stepTime_other c lab m).2]
    cases hN : findAfter netLit isFloatChar c with
    | none =>
      rw [stepNetwork_skip c lab _ hN]
      exact h2
    | some tok =>
      cases hq : parsePyFloat tok with
      | none =>
        rw [stepNetwork_err c lab _ tok hN hq]
        exact h2
      | some q =>
        rw [stepNetwork_ok c lab _ tok q hN hq]
        refine ⟨h2.1, h2.2.1, ?_⟩
        show List.Sublist ((insertA _ lab _).map Prod.fst) _
        rw [hm2n]
        exact insertA_keys_sub _ L lab _ h.2.2 hlab
  intro x hx
  unfold extractStates at hx
  cases hP : parseAll (scanEnergy c) with
  | none =>
    rw [stepEnergy_err c lab (stepTime c lab m) hP] at hx
    simp only [List.mem_cons, List.not_mem_nil, or_false] at hx
    rcases hx with rfl | rfl
    · exact h1
    · have h4 := h2
      rw [stepEnergy_err c lab (stepTime c lab m) hP] at h4
      exact h4
  | some qs =>
    rw [stepEnergy_ok c lab (stepTime c lab m) qs hP] at hx
    simp only [List.mem_cons, List.not_mem_nil, or_false] at hx
    rcases hx with rfl | rfl | rfl
    · exact h1
    · have h4 := h2
      rw [stepEnergy_ok c lab (stepTime c lab m) qs hP] at h4
      exact h4
    · have h4 := h3
      rw [stepEnergy_ok c lab (stepTime c lab m) qs hP] at h4
      exact h4

/-- The final state of one `extract_metrics` call. -/
theorem extract_keysUpTo (c : List Char) (lab : String) (m : Metrics) (L : List String)
    (h : KeysUpTo m L) (hlab : lab ∉ L) :
    KeysUpTo (extract_metrics c lab m).1 (L ++ [lab]) := by
  have h1 : KeysUpTo (stepTime c lab m) (L ++ [lab]) := stepTime_keysUpTo c lab m L h hlab
  unfold extract_metrics
  cases hP : parseAll (scanEnergy c) with
  | none =>
    rw [stepEnergy_err c lab (stepTime c lab m) hP]
    exact h1
  | some qs =>
    rw [stepEnergy_ok c lab (stepTime c lab m) qs hP]
    show KeysUpTo (stepNetwork c lab _).1 (L ++ [lab])
    have h2 : KeysUpTo (stepEnergy c lab (stepTime c lab m)).1 (L ++ [lab]) := by
      rw [stepEnergy_ok c lab (stepTime c lab m) qs hP]
      refine ⟨h1.1, ?_, h1.2.2⟩
      show List.Sublist ((insertA (stepTime c lab m).energy_consumption lab _).map Prod.fst) _
      rw [(stepTime_other c lab m).1]
      exact insertA_keys_sub _ L lab _ h.2.1 hlab
    have hm2n : (stepEnergy c lab (stepTime c lab m)).1.network_usage = m.network_usage := by
      rw [(stepEnergy_other c lab _).2, (stepTime_other c lab m).2]
    rw [stepEnergy_ok c lab (stepTime c lab m) qs hP] at h2 hm2n
    cases hN : findAfter netLit isFloatChar c with
    | none =>
      rw [stepNetwork_skip c lab _ hN]
      exact h2
    | some tok =>
      cases hq : parsePyFloat tok with
      | none =>
        rw [stepNetwork_err c lab _ tok hN hq]
        exact h2
      | some q =>
        rw [stepNetwork_ok c lab _ tok q hN hq]
        refine ⟨h2.1, h2.2.1, ?_⟩
        show List.Sublist ((insertA _ lab _).map Prod.fst) _
        rw [hm2n]
        exact insertA_keys_sub _ L lab _ h.2.2 hlab

theorem processFile_keysUpTo (inp : Option (List Char)) (lab : String)
    (st : Metrics × Option Err) (L : List String)
    (h : KeysUpTo st.1 L) (hlab : lab ∉ L) :
    KeysUpTo (processFile inp lab st).1 (L ++ [lab]) := by
  rcases st with ⟨m, e⟩
  cases e with
  | some e => exact keysUpTo_mono m L _ h (List.sublist_append_left L [lab])
  | none =>
    cases inp with
    | none => exact keysUpTo_mono m L _ h (List.sublist_append_left L [lab])
    | some c => exact extract_keysUpTo c lab m L h hlab

theorem fileStates_keysUpTo (inp : Option (List Char)) (lab : String)
    (st : Metrics × Option Err) (L : List String)
    (h : KeysUpTo st.1 L) (hlab : lab ∉ L) :
    ∀ x ∈ fileStates inp lab st, KeysUpTo x (L ++ [lab]) := by
  rcases st with ⟨m, e⟩
  cases e with
  | some e => intro x hx; simp [fileStates] at hx
  | none =>
    cases inp with
    | none => intro x hx; simp [fileStates] at hx
    | some c => exact extractStates_keysUpTo c lab m L h hlab

/-! ## Pipeline-level lemmas -/

/-- A missing file is a no-op on the whole state. -/
theorem processFile_none_id (lab : String) (st : Metrics × Option Err) :
    processFile none lab st = st := by
  rcases st with ⟨m, e⟩
  cases e <;> rfl

theorem processFile_lookup_ne (inp : Option (List Char)) (lab : String)
    (st : Metrics × Option Err) (lab' : String) (h : lab' ≠ lab) :
    lookupVal (processFile inp lab st).1.execution_time lab'
        = lookupVal st.1.execution_time lab'
      ∧ lookupVal (processFile inp lab st).1.energy_consumption lab'
        = lookupVal st.1.energy_consumption lab'
      ∧ lookupVal (processFile inp lab st).1.network_usage lab'
        = lookupVal st.1.network_usage lab' := by
  rcases st with ⟨m, e⟩
  cases e with
  | some e => exact ⟨rfl, rfl, rfl⟩
  | none =>
    cases inp with
    | none => exact ⟨rfl, rfl, rfl⟩
    | some c => exact extract_lookup_ne c lab m lab' h

/-- If the `Simple` file is missing, no mapping ever has a `Simple` key. -/
theorem runPipeline_simple_absent (l f : Option (List Char)) :
    lookupVal (runPipeline none l f).1.execution_time "Simple" = none
      ∧ lookupVal (runPipeline none l f).1.energy_consumption "Simple" = none
      ∧ lookupVal (runPipeline none l f).1.network_usage "Simple" = none := by
  unfold runPipeline
  rw [processFile_none_id "Simple" (initMetrics, none)]
  have h2 := processFile_lookup_ne l "Learnable" (initMetrics, none) "Simple" (by decide)
  have h3 := processFile_lookup_ne f "Full"
    (processFile l "Learnable" (initMetrics, none)) "Simple" (by decide)
  exact ⟨by rw [h3.1, h2.1]; rfl, by rw [h3.2.1, h2.2.1]; rfl, by rw [h3.2.2, h2.2.2]; rfl⟩

/-- If the `Learnable` file is missing, no mapping ever has a `Learnable` key. -/
theorem runPipeline_learnable_absent (s f : Option (List Char)) :
    lookupVal (runPipeline s none f).1.execution_time "Learnable" = none
      ∧ lookupVal (runPipeline s none f).1.energy_consumption "Learnable" = none
      ∧ lookupVal (runPipeline s none f).1.network_usage "Learnable" = none := by
  unfold runPipeline
  rw [processFile_none_id "Learnable" (processFile s "Simple" (initMetrics, none))]
  have h1 := processFile_lookup_ne s "Simple" (initMetrics, none) "Learnable" (by decide)
  have h3 := processFile_lookup_ne f "Full"
    (processFile s "Simple" (initMetrics, none)) "Learnable" (by decide)
  exact ⟨by rw [h3.1, h1.1]; rfl, by rw [h3.2.1, h1.2.1]; rfl, by rw [h3.2.2, h1.2.2]; rfl⟩

/-- If the `Full` file is missing, no mapping ever has a `Full` key. -/
theorem runPipeline_full_absent (s l : Option (List Char)) :
    lookupVal (runPipeline s l none).1.execution_time "Full" = none
      ∧ lookupVal (runPipeline s l none).1.energy_consumption "Full" = none
      ∧ lookupVal (runPipeline s l none).1.network_usage "Full" = none := by
  unfold runPipeline
  rw [processFile_none_id "Full" (processFile l "Learnable" (processFile s "Simple" (initMetrics, none)))]
  have h1 := processFile_lookup_ne s "Simple" (initMetrics, none) "Full" (by decide)
  have h2 := processFile_lookup_ne l "Learnable"
    (processFile s "Simple" (initMetrics, none)) "Full" (by decide)
  exact ⟨by rw [h2.1, h1.1]; rfl, by rw [h2.2.1, h1.2.1]; rfl, by rw [h2.2.2, h1.2.2]; rfl⟩

theorem runPipeline_keysUpTo (s l f : Option (List Char)) :
    KeysUpTo (runPipeline s l f).1 canonLabels := by
  have h0 : KeysUpTo initMetrics [] :=
    ⟨List.nil_sublist [], List.nil_sublist [], List.nil_sublist []⟩
  have h1 := processFile_keysUpTo s "Simple" (initMetrics, none) [] h0 (by decide)
  have h2 := processFile_keysUpTo l "Learnable"
    (processFile s "Simple" (initMetrics, none)) ([] ++ ["Simple"]) h1 (by decide)
  have h3 := processFile_keysUpTo f "Full"
    (processFile l "Learnable" (processFile s "Simple" (initMetrics, none)))
    (([] ++ ["Simple"]) ++ ["Learnable"]) h2 (by decide)
  exact keysUpTo_mono _ _ canonLabels h3 (by decide)

theorem runStates_keysUpTo (s l f : Option (List Char)) :
    ∀ x ∈ runStates s l f, KeysUpTo x canonLabels := by
  have h0 : KeysUpTo initMetrics [] :=
    ⟨List.nil_sublist [], List.nil_sublist [], List.nil_sublist []⟩
  have h1 := processFile_keysUpTo s "Simple" (initMetrics, none) [] h0 (by decide)
  have h2 := processFile_keysUpTo l "Learnable"
    (processFile s "Simple" (initMetrics, none)) ([] ++ ["Simple"]) h1 (by decide)
  intro x hx
  unfold runStates at hx
  rcases List.mem_cons.mp hx with rfl | hx
  · exact keysUpTo_mono _ [] _ h0 (List.nil_sublist _)
  rcases List.mem_append.mp hx with hx | hxF
  · rcases List.mem_append.mp hx with hxS | hxL
    · have := fileStates_keysUpTo s "Simple" (initMetrics, none) [] h0 (by decide) x hxS
      exact keysUpTo_mono _ _ canonLabels this (by decide)
    · have := fileStates_keysUpTo l "Learnable"
        (processFile s "Simple" (initMetrics, none)) ([] ++ ["Simple"]) h1 (by decide) x hxL
      exact keysUpTo_mono _ _ canonLabels this (by decide)
  · have := fileStates_keysUpTo f "Full"
      (processFile l "Learnable" (processFile s "Simple" (initMetrics, none)))
      (([] ++ ["Simple"]) ++ ["Learnable"]) h2 (by decide) x hxF
    exact keysUpTo_mono _ _ canonLabels this (by decide)

/-- A sublist of a duplicate-free list is recovered by filtering the big
list down to the members of the sublist. -/
theorem sublist_filter_eq (l L : List String) (h : List.Sublist l L) (hnd : L.Nodup) :
    L.filter (fun a => decide (a ∈ l)) = l := by
  induction h with
  | slnil => simp
  | @cons l1 l2 a h ih =>
    have hnd2 : l2.Nodup := (List.nodup_cons.mp hnd).2
    have hal2 : a ∉ l2 := (List.nodup_cons.mp hnd).1
    have hal : a ∉ l1 := fun hm => hal2 (h.subset hm)
    simp only [List.filter_cons]
    rw [if_neg (by simpa using hal)]
    exact ih hnd2
  | @cons₂ l1 l2 a h ih =>
    have hnd2 : l2.Nodup := (List.nodup_cons.mp hnd).2
    have hal2 : a ∉ l2 := (List.nodup_cons.mp hnd).1
    simp only [List.filter_cons]
    rw [if_pos (by simp)]
    have hcong : l2.filter (fun x => decide (x ∈ a :: l1))
        = l2.filter (fun x => decide (x ∈ l1)) := by
      apply List.filter_congr
      intro x hx
      have hxa : x ≠ a := fun hh => hal2 (hh ▸ hx)
      simp [List.mem_cons, hxa]
    rw [hcong, ih hnd2]

/-! ## Claim theorems -/

/-- C1: for every processed input file and its label, the
`energy_consumption` mapping is set unconditionally (whether or not any
match was found) to the sum of the floats matched by the energy pattern,
0.0 when there are no matches; in particular a text containing
`task-1 : Energy Consumed = 1.5` and `task-2 : Energy Consumed = 2.5`
stores the total 4.0 for that label.  (The only proviso, carried by the
hypothesis, is that every matched token is a valid float; a malformed
token raises ValueError instead — claim C9's territory.) -/
theorem C1_energy_total_is_sum :
    (∀ (c : List Char) (label : String) (m : Metrics) (qs : List ℚ),
        parseAll (scanEnergy c) = some qs →
          lookupVal ((extract_metrics c label m).1).energy_consumption label
            = some (.float qs.sum))
      ∧ (∀ (c : List Char) (label : String) (m : Metrics),
          scanEnergy c = [] →
            lookupVal ((extract_metrics c label m).1).energy_consumption label
              = some (.float 0))
      ∧ lookupVal ((extract_metrics
            "task-1 : Energy Consumed = 1.5\ntask-2 : Energy Consumed = 2.5".toList
            "Simple" initMetrics).1).energy_consumption "Simple"
          = some (.float 4) := by
  have key : ∀ (c : List Char) (label : String) (m : Metrics) (qs : List ℚ),
      parseAll (scanEnergy c) = some qs →
        lookupVal ((extract_metrics c label m).1).energy_consumption label
          = some (.float qs.sum) := by
    intro c label m qs h
    rw [extract_energy_ok c label m qs h]
    exact lookupVal_insertA_self _ label _
  refine ⟨key, ?_, ?_⟩
  · intro c label m h
    have h0 : parseAll (scanEnergy c) = some [] := by rw [h]; rfl
    simpa using key c label m [] h0
  · have h1 : parseAll (scanEnergy
        "task-1 : Energy Consumed = 1.5\ntask-2 : Energy Consumed = 2.5".toList)
        = some [(1 : ℚ) + (5 : ℚ) / 10 ^ (1 : Nat), (2 : ℚ) + (5 : ℚ) / 10 ^ (1 : Nat)] := by
      rfl
    rw [key _ "Simple" initMetrics _ h1]
    norm_num

/-- Witness for C1 at a concrete input. -/
theorem C1_energy_total_is_sum_witness :
    lookupVal ((extract_metrics
        "task-1 : Energy Consumed = 1.5\ntask-2 : Energy Consumed = 2.5".toList
        "Learnable" initMetrics).1).energy_consumption "Learnable"
      = some (.float ([(1 : ℚ) + (5 : ℚ) / 10 ^ (1 : Nat),
          (2 : ℚ) + (5 : ℚ) / 10 ^ (1 : Nat)]).sum) :=
  C1_energy_total_is_sum.1 _ "Learnable" initMetrics _ (by rfl)

/-- C3: a missing input file is skipped silently: the skip is a no-op on
the state (no error raised), the skipped file's label is absent from all
three mappings (including `energy_consumption`), and the remaining files
are processed exactly as they would be alone. -/
theorem C3_missing_files_skipped :
    (∀ (lab : String) (st : Metrics × Option Err), processFile none lab st = st)
      ∧ (∀ l f, lookupVal (runPipeline none l f).1.execution_time "Simple" = none
          ∧ lookupVal (runPipeline none l f).1.energy_consumption "Simple" = none
          ∧ lookupVal (runPipeline none l f).1.network_usage "Simple" = none)
      ∧ (∀ s f, lookupVal (runPipeline s none f).1.execution_time "Learnable" = none
          ∧ lookupVal (runPipeline s none f).1.energy_consumption "Learnable" = none
          ∧ lookupVal (runPipeline s none f).1.network_usage "Learnable" = none)
      ∧ (∀ s l, lookupVal (runPipeline s l none).1.execution_time "Full" = none
          ∧ lookupVal (runPipeline s l none).1.energy_consumption "Full" = none
          ∧ lookupVal (runPipeline s l none).1.network_usage "Full" = none)
      ∧ (∀ l f, runPipeline none l f
          = processFile f "Full" (processFile l "Learnable" (initMetrics, none))) := by
  refine ⟨processFile_none_id, runPipeline_simple_absent, runPipeline_learnable_absent,
    runPipeline_full_absent, ?_⟩
  intro l f
  unfold runPipeline
  rw [processFile_none_id]

/-- C4: every metric category's CSV is the header row
`["Simulation Type", name]` followed by exactly one row per label present
in that category's mapping, and the labels appear in insertion order,
which is the processing order Simple, Learnable, Full restricted to the
labels present. -/
theorem C4_csv_structure :
    ∀ (s l f : Option (List Char)) (m : Metrics), runPipeline s l f = (m, none) →
      (csvRows "execution_time" m.execution_time
          = ["Simulation Type", "execution_time"]
            :: m.execution_time.map (fun p => [p.1, renderNumS p.2])
        ∧ m.execution_time.map Prod.fst
          = canonLabels.filter (fun a => decide (a ∈ m.execution_time.map Prod.fst)))
      ∧ (csvRows "energy_consumption" m.energy_consumption
          = ["Simulation Type", "energy_consumption"]
            :: m.energy_consumption.map (fun p => [p.1, renderNumS p.2])
        ∧ m.energy_consumption.map Prod.fst
          = canonLabels.filter (fun a => decide (a ∈ m.energy_consumption.map Prod.fst)))
      ∧ (csvRows "network_usage" m.network_usage
          = ["Simulation Type", "network_usage"]
            :: m.network_usage.map (fun p => [p.1, renderNumS p.2])
        ∧ m.network_usage.map Prod.fst
          = canonLabels.filter (fun a => decide (a ∈ m.network_usage.map Prod.fst))) := by
  intro s l f m hrun
  have hk : KeysUpTo m canonLabels := by
    have h := runPipeline_keysUpTo s l f
    rw [hrun] at h
    exact h
  have hnd : canonLabels.Nodup := by decide
  exact ⟨⟨rfl, (sublist_filter_eq _ _ hk.1 hnd).symm⟩,
    ⟨rfl, (sublist_filter_eq _ _ hk.2.1 hnd).symm⟩,
    ⟨rfl, (sublist_filter_eq _ _ hk.2.2 hnd).symm⟩⟩

/-- Witness for C4 at a concrete input (only the Learnable file exists
and contains one execution-time line). -/
theorem C4_csv_structure_witness :
    csvRows "execution_time" [("Learnable", PyNum.int 7)]
        = ["Simulation Type", "execution_time"]
          :: [("Learnable", PyNum.int 7)].map (fun p => [p.1, renderNumS p.2])
      ∧ [("Learnable", PyNum.int 7)].map Prod.fst
        = canonLabels.filter
            (fun a => decide (a ∈ [("Learnable", PyNum.int 7)].map Prod.fst)) :=
  (C4_csv_structure none (some "EXECUTION TIME : 7".toList) none
    ⟨[("Learnable", PyNum.int 7)], [("Learnable", PyNum.float 0)], []⟩ (by rfl)).1

/-- C10: at every point of execution each mapping's keys are drawn from
Simple/Learnable/Full, contain no duplicates, and occur in an order
consistent with Simple before Learnable before Full — all three facts
packaged as: the key list is a duplicate-free sublist of
`["Simple", "Learnable", "Full"]`; every per-file extraction step
preserves this. -/
theorem C10_keys_invariant :
    ∀ (s l f : Option (List Char)), ∀ x ∈ runStates s l f,
      (List.Sublist (x.execution_time.map Prod.fst) canonLabels
          ∧ (x.execution_time.map Prod.fst).Nodup)
        ∧ (List.Sublist (x.energy_consumption.map Prod.fst) canonLabels
          ∧ (x.energy_consumption.map Prod.fst).Nodup)
        ∧ (List.Sublist (x.network_usage.map Prod.fst) canonLabels
          ∧ (x.network_usage.map Prod.fst).Nodup) := by
  intro s l f x hx
  have h := runStates_keysUpTo s l f x hx
  have hnd : canonLabels.Nodup := by decide
  exact ⟨⟨h.1, List.Nodup.sublist h.1 hnd⟩,
    ⟨h.2.1, List.Nodup.sublist h.2.1 hnd⟩,
    ⟨h.2.2, List.Nodup.sublist h.2.2 hnd⟩⟩

/-- Witness for C10 at a concrete run state. -/
theorem C10_keys_invariant_witness :
    (List.Sublist (initMetrics.execution_time.map Prod.fst) canonLabels
        ∧ (initMetrics.execution_time.map Prod.fst).Nodup)
      ∧ (List.Sublist (initMetrics.energy_consumption.map Prod.fst) canonLabels
        ∧ (initMetrics.energy_consumption.map Prod.fst).Nodup)
      ∧ (List.Sublist (initMetrics.network_usage.map Prod.fst) canonLabels
        ∧ (initMetrics.network_usage.map Prod.fst).Nodup) :=
  C10_keys_invariant none none none initMetrics (by decide)

/-! ## File-system lemmas -/

theorem writeOutputs_preserves_inputs (m : Metrics) (fs : FS) :
    writeOutputs m fs simplePath = fs simplePath
      ∧ writeOutputs m fs learnablePath = fs learnablePath
      ∧ writeOutputs m fs fullPath = fs fullPath := by
  unfold writeOutputs
  refine ⟨?_, ?_, ?_⟩ <;>
    rw [Function.update_noteq (by decide), Function.update_noteq (by decide),
      Function.update_noteq (by decide), Function.update_noteq (by decide)]

theorem writeOutputs_idem (m : Metrics) (fs : FS) :
    writeOutputs m (writeOutputs m fs) = writeOutputs m fs := by
  funext p
  simp only [writeOutputs, Function.update_apply]
  split_ifs <;> rfl

theorem writeOutputs_at_outputs (m : Metrics) (fs : FS) :
    writeOutputs m fs (resultsDir ++ "/execution_time.csv")
        = some (csvContent "execution_time" m.execution_time)
      ∧ writeOutputs m fs (resultsDir ++ "/energy_consumption.csv")
        = some (csvContent "energy_consumption" m.energy_consumption)
      ∧ writeOutputs m fs (resultsDir ++ "/network_usage.csv")
        = some (csvContent "network_usage" m.network_usage)
      ∧ writeOutputs m fs (resultsDir ++ "/all_metrics.json")
        = some (jsonContent m) := by
  unfold writeOutputs
  refine ⟨?_, ?_, ?_, ?_⟩
  · rw [Function.update_noteq (by decide), Function.update_noteq (by decide),
      Function.update_noteq (by decide), Function.update_same]
  · rw [Function.update_noteq (by decide), Function.update_noteq (by decide),
      Function.update_same]
  · rw [Function.update_noteq (by decide), Function.update_same]
  · rw [Function.update_same]

/-! ## Claim theorems (continued) -/

/-- C9: a numeric capture of `[\d\.]+` need not be a valid number: on the
log line `Total network usage = 1.2.3` the regex captures `1.2.3`,
`float("1.2.3")` raises an unhandled ValueError, the run terminates with
that error, and no output file is written (the file system is returned
unchanged); likewise for an energy token `..`.  So I/O failures are not
the only fatal errors. -/
theorem C9_malformed_float_fatal :
    findAfter netLit isFloatChar "Total network usage = 1.2.3".toList
        = some "1.2.3".toList
      ∧ parsePyFloat "1.2.3".toList = none
      ∧ (runPipeline (some "Total network usage = 1.2.3".toList) none none).2
        = some Err.valueError
      ∧ (runPipeline (some "x : Energy Consumed = ..".toList) none none).2
        = some Err.valueError
      ∧ runOnFS fsC9 = fsC9 := by
  refine ⟨by decide, by decide, by decide, by decide, ?_⟩
  unfold runOnFS
  cases hp : runPipeline (readFile fsC9 simplePath) (readFile fsC9 learnablePath)
      (readFile fsC9 fullPath) with
  | mk m e =>
    have h2 : (runPipeline (readFile fsC9 simplePath) (readFile fsC9 learnablePath)
        (readFile fsC9 fullPath)).2 = some Err.valueError := by decide
    rw [hp] at h2
    simp only at h2
    rw [h2]

/-- C8: the extractor is a deterministic function of the three input
files, and running it twice on unchanged inputs writes byte-identical
CSV and JSON outputs — as a file-system transformer it is idempotent,
and the bytes written at the four output paths depend only on the three
input files' contents. -/
theorem C8_deterministic_idempotent :
    (∀ fs : FS, runOnFS (runOnFS fs) = runOnFS fs)
      ∧ (∀ (fs1 fs2 : FS) (m : Metrics),
          fs1 simplePath = fs2 simplePath →
          fs1 learnablePath = fs2 learnablePath →
          fs1 fullPath = fs2 fullPath →
          runPipeline (readFile fs1 simplePath) (readFile fs1 learnablePath)
            (readFile fs1 fullPath) = (m, none) →
          runOnFS fs1 (resultsDir ++ "/execution_time.csv")
              = runOnFS fs2 (resultsDir ++ "/execution_time.csv")
            ∧ runOnFS fs1 (resultsDir ++ "/energy_consumption.csv")
              = runOnFS fs2 (resultsDir ++ "/energy_consumption.csv")
            ∧ runOnFS fs1 (resultsDir ++ "/network_usage.csv")
              = runOnFS fs2 (resultsDir ++ "/network_usage.csv")
            ∧ runOnFS fs1 (resultsDir ++ "/all_metrics.json")
              = runOnFS fs2 (resultsDir ++ "/all_metrics.json")) := by
  constructor
  · intro fs
    cases hp : runPipeline (readFile fs simplePath) (readFile fs learnablePath)
        (readFile fs fullPath) with
    | mk m e =>
      cases e with
      | some err =>
        have h1 : runOnFS fs = fs := by
          unfold runOnFS
          rw [hp]
        rw [h1]
        exact h1
      | none =>
        have h1 : runOnFS fs = writeOutputs m fs := by
          unfold runOnFS
          rw [hp]
        have hrd := writeOutputs_preserves_inputs m fs
        have hp2 : runPipeline (readFile (writeOutputs m fs) simplePath)
            (readFile (writeOutputs m fs) learnablePath)
            (readFile (writeOutputs m fs) fullPath) = (m, none) := by
          unfold readFile
          rw [hrd.1, hrd.2.1, hrd.2.2]
          unfold readFile at hp
          exact hp
        have h2 : runOnFS (writeOutputs m fs) = writeOutputs m (writeOutputs m fs) := by
          unfold runOnFS
          rw [hp2]
        rw [h1, h2, writeOutputs_idem]
  · intro fs1 fs2 m h1 h2 h3 hp
    have hp2 : runPipeline (readFile fs2 simplePath) (readFile fs2 learnablePath)
        (readFile fs2 fullPath) = (m, none) := by
      unfold readFile
      rw [← h1, ← h2, ← h3]
      unfold readFile at hp
      exact hp
    have e1 : runOnFS fs1 = writeOutputs m fs1 := by
      unfold runOnFS
      rw [hp]
    have e2 : runOnFS fs2 = writeOutputs m fs2 := by
      unfold runOnFS
      rw [hp2]
    rw [e1, e2]
    have w1 := writeOutputs_at_outputs m fs1
    have w2 := writeOutputs_at_outputs m fs2
    exact ⟨w1.1.trans w2.1.symm, w1.2.1.trans w2.2.1.symm,
      w1.2.2.1.trans w2.2.2.1.symm, w1.2.2.2.trans w2.2.2.2.symm⟩

/-- Witness for C8 at a concrete file system. -/
theorem C8_deterministic_idempotent_witness :
    runOnFS emptyFS (resultsDir ++ "/execution_time.csv")
        = runOnFS emptyFS (resultsDir ++ "/execution_time.csv")
      ∧ runOnFS emptyFS (resultsDir ++ "/energy_consumption.csv")
        = runOnFS emptyFS (resultsDir ++ "/energy_consumption.csv")
      ∧ runOnFS emptyFS (resultsDir ++ "/network_usage.csv")
        = runOnFS emptyFS (resultsDir ++ "/network_usage.csv")
      ∧ runOnFS emptyFS (resultsDir ++ "/all_metrics.json")
        = runOnFS emptyFS (resultsDir ++ "/all_metrics.json") :=
  C8_deterministic_idempotent.2 emptyFS emptyFS initMetrics rfl rfl rfl (by rfl)

/-- C5 counterexample: the claim "if only the Learnable input exists,
every output CSV contains exactly one data row" fails at the concrete
input where `learnable_drl_results.txt` exists but is empty: the run
succeeds and the energy CSV does get its Learnable row, but the
execution-time CSV consists of the header only — zero data rows, not
one. -/
theorem C5_counterexample :
    (runPipeline none (some []) none).2 = none
      ∧ (runPipeline none (some []) none).1.energy_consumption
        = [("Learnable", PyNum.float 0)]
      ∧ (csvRows "execution_time"
          (runPipeline none (some []) none).1.execution_time).length = 1 := by
  refine ⟨by decide, by decide, by decide⟩

/-- C5 (amended): if only the `learnable_drl_results.txt` input exists and
its processing completes without a ValueError, then the energy CSV has
exactly one data row, labelled Learnable; the execution-time and
network-usage CSVs have at most one data row each — a Learnable row
exactly when the corresponding pattern matched; and no category has a
Simple or Full entry. -/
theorem C5_only_learnable :
    ∀ (c : List Char) (m : Metrics), runPipeline none (some c) none = (m, none) →
      m.energy_consumption.map Prod.fst = ["Learnable"]
        ∧ (csvRows "energy_consumption" m.energy_consumption).length = 2
        ∧ m.execution_time.map Prod.fst
          = (if (findAfter execLit Char.isDigit c).isSome then ["Learnable"] else [])
        ∧ m.network_usage.map Prod.fst
          = (if (findAfter netLit isFloatChar c).isSome then ["Learnable"] else [])
        ∧ lookupVal m.execution_time "Simple" = none
        ∧ lookupVal m.energy_consumption "Simple" = none
        ∧ lookupVal m.network_usage "Simple" = none
        ∧ lookupVal m.execution_time "Full" = none
        ∧ lookupVal m.energy_consumption "Full" = none
        ∧ lookupVal m.network_usage "Full" = none := by
  intro c m hrun
  have hrun2 : extract_metrics c "Learnable" initMetrics = (m, none) := by
    have h0 : runPipeline none (some c) none
        = extract_metrics c "Learnable" initMetrics := by
      unfold runPipeline
      rw [processFile_none_id "Simple" (initMetrics, none)]
      show processFile none "Full" (extract_metrics c "Learnable" initMetrics) = _
      rw [processFile_none_id]
    rw [← h0]
    exact hrun
  have hm1 : (extract_metrics c "Learnable" initMetrics).1 = m := by rw [hrun2]
  have hme : (extract_metrics c "Learnable" initMetrics).2 = none := by rw [hrun2]
  have hqs : ∃ qs, parseAll (scanEnergy c) = some qs := by
    cases hP : parseAll (scanEnergy c) with
    | none =>
      have h := (extract_energy_err c "Learnable" initMetrics hP).2
      rw [hme] at h
      exact absurd h (by simp)
    | some qs => exact ⟨qs, rfl⟩
  obtain ⟨qs, hP⟩ := hqs
  have hEmap : m.energy_consumption = [("Learnable", PyNum.float qs.sum)] := by
    rw [← hm1, extract_energy_ok c "Learnable" initMetrics qs hP]
    rfl
  refine ⟨by rw [hEmap]; rfl, by rw [hEmap]; rfl, ?_, ?_, ?_, ?_, ?_, ?_, ?_, ?_⟩
  · have hx : m.execution_time = (stepTime c "Learnable" initMetrics).execution_time := by
      rw [← hm1]
      exact extract_execution c "Learnable" initMetrics
    cases hT : findAfter execLit Char.isDigit c with
    | none =>
      rw [hx, stepTime_skip c "Learnable" initMetrics hT]
      rfl
    | some tok =>
      rw [hx, stepTime_ok c "Learnable" initMetrics tok hT]
      rfl
  · cases hN : findAfter netLit isFloatChar c with
    | none =>
      rw [← hm1, extract_network_none c "Learnable" initMetrics hN]
      rfl
    | some tok =>
      cases hq : parsePyFloat tok with
      | none =>
        have h := extract_network_err c "Learnable" initMetrics qs tok hP hN hq
        rw [hme] at h
        exact absurd h (by simp)
      | some q =>
        rw [← hm1, (extract_network_ok c "Learnable" initMetrics qs tok q hP hN hq).1]
        rfl
  · have h := (runPipeline_simple_absent (some c) none).1
    rw [hrun] at h
    exact h
  · have h := (runPipeline_simple_absent (some c) none).2.1
    rw [hrun] at h
    exact h
  · have h := (runPipeline_simple_absent (some c) none).2.2
    rw [hrun] at h
    exact h
  · have h := (runPipeline_full_absent none (some c)).1
    rw [hrun] at h
    exact h
  · have h := (runPipeline_full_absent none (some c)).2.1
    rw [hrun] at h
    exact h
  · have h := (runPipeline_full_absent none (some c)).2.2
    rw [hrun] at h
    exact h

/-- Witness for the amended C5 at a concrete input (empty Learnable log). -/
theorem C5_only_learnable_witness :
    ([("Learnable", PyNum.float 0)] : List (String × PyNum)).map Prod.fst = ["Learnable"]
      ∧ (csvRows "energy_consumption" [("Learnable", PyNum.float 0)]).length = 2
      ∧ ([] : List (String × PyNum)).map Prod.fst
        = (if (findAfter execLit Char.isDigit []).isSome then ["Learnable"] else [])
      ∧ ([] : List (String × PyNum)).map Prod.fst
        = (if (findAfter netLit isFloatChar []).isSome then ["Learnable"] else [])
      ∧ lookupVal [] "Simple" = none
      ∧ lookupVal [("Learnable", PyNum.float 0)] "Simple" = none
      ∧ lookupVal [] "Simple" = none
      ∧ lookupVal [] "Full" = none
      ∧ lookupVal [("Learnable", PyNum.float 0)] "Full" = none
      ∧ lookupVal [] "Full" = none :=
  C5_only_learnable [] ⟨[], [("Learnable", PyNum.float 0)], []⟩ (by rfl)

/-! ## Scanning lemmas: `findAfter` -/

theorem takeWhile_all_append (l r : List Char) (p : Char → Bool)
    (hl : l.all p = true) (hr : headSat p r = false) :
    (l ++ r).takeWhile p = l ∧ (l ++ r).dropWhile p = r := by
  induction l with
  | nil =>
    constructor
    · cases r with
      | nil => rfl
      | cons c t =>
        have hc : p c = false := hr
        simp [List.takeWhile_cons, hc]
    · cases r with
      | nil => rfl
      | cons c t =>
        have hc : p c = false := hr
        simp [List.dropWhile_cons, hc]
  | cons c t ih =>
    simp only [List.all_cons, Bool.and_eq_true] at hl
    have ihh := ih hl.2
    constructor
    · simp [List.takeWhile_cons, hl.1, ihh.1]
    · simp [List.dropWhile_cons, hl.1, ihh.2]

theorem isPrefixOf_append_self (l r : List Char) : l.isPrefixOf (l ++ r) = true := by
  induction l with
  | nil => simp [List.isPrefixOf]
  | cons c t ih => simp [List.isPrefixOf, ih]

theorem findAfter_cons (lit : List Char) (p : Char → Bool) (c : Char) (cs : List Char) :
    findAfter lit p (c :: cs)
      = if (lit.isPrefixOf (c :: cs) && headSat p ((c :: cs).drop lit.length)) then
          some (((c :: cs).drop lit.length).takeWhile p)
        else findAfter lit p cs := rfl

/-- `re.search` semantics, declaratively: if the text decomposes as
`pre ++ (lit ++ (tok ++ suf))` with `tok` a nonempty maximal run of class
characters and no position inside `pre` where the pattern matches, then
the search returns exactly `tok`. -/
theorem findAfter_spec (lit : List Char) (p : Char → Bool) (pre tok suf : List Char)
    (hlit : lit ≠ [])
    (htok : tok ≠ [])
    (hta : tok.all p = true)
    (hsuf : headSat p suf = false)
    (hpre : ∀ i, i < pre.length →
        ¬(lit.isPrefixOf ((pre ++ (lit ++ (tok ++ suf))).drop i) = true
            ∧ headSat p ((pre ++ (lit ++ (tok ++ suf))).drop (i + lit.length)) = true)) :
    findAfter lit p (pre ++ (lit ++ (tok ++ suf))) = some tok := by
  induction pre with
  | nil =>
    cases hl : lit with
    | nil => exact absurd hl hlit
    | cons lc lt =>
      subst hl
      show findAfter (lc :: lt) p (lc :: (lt ++ (tok ++ suf))) = some tok
      have hdrop : ((lc :: lt) ++ (tok ++ suf)).drop (lc :: lt).length = tok ++ suf :=
        List.drop_left (lc :: lt) (tok ++ suf)
      have hhead : headSat p (tok ++ suf) = true := by
        cases tok with
        | nil => exact absurd rfl htok
        | cons tc tt =>
          simp only [List.all_cons, Bool.and_eq_true] at hta
          exact hta.1
      have hcond : ((lc :: lt).isPrefixOf (lc :: (lt ++ (tok ++ suf)))
          && headSat p ((lc :: (lt ++ (tok ++ suf))).drop (lc :: lt).length)) = true := by
        have h1 : (lc :: lt).isPrefixOf ((lc :: lt) ++ (tok ++ suf)) = true :=
          isPrefixOf_append_self (lc :: lt) (tok ++ suf)
        show ((lc :: lt).isPrefixOf ((lc :: lt) ++ (tok ++ suf))
          && headSat p (((lc :: lt) ++ (tok ++ suf)).drop (lc :: lt).length)) = true
        rw [h1, hdrop, hhead]
        rfl
      rw [findAfter_cons (lc :: lt) p lc (lt ++ (tok ++ suf)), if_pos hcond]
      show some ((((lc :: lt) ++ (tok ++ suf)).drop (lc :: lt).length).takeWhile p) = some tok
      rw [hdrop, (takeWhile_all_append tok suf p hta hsuf).1]
  | cons c pre' ih =>
    have h0 := hpre 0 (by simp)
    have hcond : (lit.isPrefixOf (c :: (pre' ++ (lit ++ (tok ++ suf))))
        && headSat p ((c :: (pre' ++ (lit ++ (tok ++ suf)))).drop lit.length)) = false := by
      rcases hb : (lit.isPrefixOf (c :: (pre' ++ (lit ++ (tok ++ suf))))
          && headSat p ((c :: (pre' ++ (lit ++ (tok ++ suf)))).drop lit.length)) with _ | _
      · rfl
      · exfalso
        rw [Bool.and_eq_true] at hb
        apply h0
        constructor
        · exact hb.1
        · have ez : (0 : Nat) + lit.length = lit.length := by omega
          rw [ez]
          exact hb.2
    show findAfter lit p (c :: (pre' ++ (lit ++ (tok ++ suf)))) = some tok
    rw [findAfter_cons lit p c (pre' ++ (lit ++ (tok ++ suf))), if_neg (by simp [hcond])]
    apply ih
    intro i hi
    have h := hpre (i + 1) (by simpa using Nat.succ_lt_succ hi)
    intro hcontra
    apply h
    constructor
    · have e1 : ((c :: pre') ++ (lit ++ (tok ++ suf))).drop (i + 1)
          = (pre' ++ (lit ++ (tok ++ suf))).drop i := List.drop_succ_cons
      rw [e1]
      exact hcontra.1
    · have e2 : ((c :: pre') ++ (lit ++ (tok ++ suf))).drop (i + 1 + lit.length)
          = (pre' ++ (lit ++ (tok ++ suf))).drop (i + lit.length) := by
        have e3 : i + 1 + lit.length = (i + lit.length) + 1 := by omega
        rw [e3]
        exact List.drop_succ_cons
      rw [e2]
      exact hcontra.2

/-- C2: for every processed file and label — if the text contains
`EXECUTION TIME : <integer>`, the first such integer (greedy digit run)
is stored as an integer under the label; likewise the first
`Total network usage = <float>` occurrence is stored as a float; if a
pattern has no occurrence, the corresponding mapping is left unchanged
(no entry for the label — omission, not zero) and the absence raises no
error. -/
theorem C2_first_match_or_omitted :
    ∀ (c : List Char) (label : String) (m : Metrics),
      (∀ pre ds suf, c = pre ++ (execLit ++ (ds ++ suf)) → ds ≠ [] →
          ds.all Char.isDigit = true → headSat Char.isDigit suf = false →
          (∀ i, i < pre.length →
            ¬(execLit.isPrefixOf (c.drop i) = true
                ∧ headSat Char.isDigit (c.drop (i + execLit.length)) = true)) →
          lookupVal ((extract_metrics c label m).1).execution_time label
            = some (.int (digitsToNat ds)))
      ∧ (findAfter execLit Char.isDigit c = none →
          (extract_metrics c label m).1.execution_time = m.execution_time)
      ∧ (∀ qs pre ds suf q, parseAll (scanEnergy c) = some qs →
          c = pre ++ (netLit ++ (ds ++ suf)) → ds ≠ [] →
          ds.all isFloatChar = true → headSat isFloatChar suf = false →
          (∀ i, i < pre.length →
            ¬(netLit.isPrefixOf (c.drop i) = true
                ∧ headSat isFloatChar (c.drop (i + netLit.length)) = true)) →
          parsePyFloat ds = some q →
          lookupVal ((extract_metrics c label m).1).network_usage label
            = some (.float q))
      ∧ (findAfter netLit isFloatChar c = none →
          (extract_metrics c label m).1.network_usage = m.network_usage)
      ∧ (∀ qs, parseAll (scanEnergy c) = some qs →
          findAfter netLit isFloatChar c = none →
          (extract_metrics c label m).2 = none) := by
  intro c label m
  refine ⟨?_, ?_, ?_, ?_, ?_⟩
  · intro pre ds suf hc hne hall hsuf hpre
    have hf : findAfter execLit Char.isDigit c = some ds := by
      rw [hc]
      apply findAfter_spec execLit Char.isDigit pre ds suf (by decide) hne hall hsuf
      rw [hc] at hpre
      exact hpre
    rw [extract_execution c label m, stepTime_ok c label m ds hf]
    exact lookupVal_insertA_self _ label _
  · intro hf
    rw [extract_execution c label m, stepTime_skip c label m hf]
  · intro qs pre ds suf q hqs hc hne hall hsuf hpre hq
    have hf : findAfter netLit isFloatChar c = some ds := by
      rw [hc]
      apply findAfter_spec netLit isFloatChar pre ds suf (by decide) hne hall hsuf
      rw [hc] at hpre
      exact hpre
    rw [(extract_network_ok c label m qs ds q hqs hf hq).1]
    exact lookupVal_insertA_self _ label _
  · intro hf
    rw [extract_network_none c label m hf]
  · intro qs hqs hf
    exact extract_no_error c label m qs hqs hf

/-- Witness for C2 at a concrete log. -/
theorem C2_first_match_or_omitted_witness :
    lookupVal ((extract_metrics
        "EXECUTION TIME : 42\nTotal network usage = 3.5".toList
        "Simple" initMetrics).1).execution_time "Simple"
      = some (.int (digitsToNat "42".toList))
    ∧ lookupVal ((extract_metrics
        "EXECUTION TIME : 42\nTotal network usage = 3.5".toList
        "Simple" initMetrics).1).network_usage "Simple"
      = some (.float ((digitsToNat "3".toList : ℚ)
          + (digitsToNat "5".toList : ℚ) / 10 ^ (1 : Nat))) := by
  constructor
  · exact (C2_first_match_or_omitted
      "EXECUTION TIME : 42\nTotal network usage = 3.5".toList "Simple" initMetrics).1
      [] "42".toList "\nTotal network usage = 3.5".toList
      (by decide) (by decide) (by decide) (by decide)
      (by intro i hi; simp at hi)
  · exact (C2_first_match_or_omitted
      "EXECUTION TIME : 42\nTotal network usage = 3.5".toList "Simple" initMetrics).2.2.1
      [] "EXECUTION TIME : 42\n".toList "3.5".toList []
      ((digitsToNat "3".toList : ℚ) + (digitsToNat "5".toList : ℚ) / 10 ^ (1 : Nat))
      (by rfl) (by decide) (by decide) (by decide) (by decide)
      (by decide) (by rfl)

/-! ## Scanning lemmas: `tryEnergy` and `scanEnergy` -/

theorem dropWhile_eq_drop_len (l : List Char) (p : Char → Bool) :
    l.dropWhile p = l.drop (l.takeWhile p).length := by
  calc l.dropWhile p
      = (l.takeWhile p ++ l.dropWhile p).drop (l.takeWhile p).length :=
        (List.drop_left _ _).symm
    _ = l.drop (l.takeWhile p).length := by rw [List.takeWhile_append_dropWhile]

theorem tryEnergy_some_parts (cs : List Char) (pr : List Char × List Char) (rest : List Char)
    (h : tryEnergy cs = some (pr, rest)) :
    groupOk (cs.takeWhile isNameChar) = true
      ∧ energyLit.isPrefixOf (cs.dropWhile isNameChar) = true
      ∧ rest.length < cs.length := by
  unfold tryEnergy at h
  by_cases h1 : groupOk (cs.takeWhile isNameChar) = true
  case neg =>
    rw [if_neg h1] at h
    exact absurd h (by simp)
  rw [if_pos h1] at h
  by_cases h2 : energyLit.isPrefixOf (cs.dropWhile isNameChar) = true
  case neg =>
    rw [if_neg h2] at h
    exact absurd h (by simp)
  rw [if_pos h2] at h
  by_cases h3 : (((cs.dropWhile isNameChar).drop energyLit.length).takeWhile isFloatChar).isEmpty
    = true
  case pos =>
    rw [if_pos h3] at h
    exact absurd h (by simp)
  rw [if_neg h3] at h
  refine ⟨h1, h2, ?_⟩
  have hrest : rest = ((cs.dropWhile isNameChar).drop energyLit.length).dropWhile isFloatChar := by
    have := (Option.some.inj h)
    exact (congrArg Prod.snd this).symm
  have hrun : cs.takeWhile isNameChar ≠ [] := by
    intro hh
    rw [hh] at h1
    exact absurd h1 (by decide)
  have hlen1 : (cs.takeWhile isNameChar).length + (cs.dropWhile isNameChar).length
      = cs.length := by
    have h0 := congrArg List.length (List.takeWhile_append_dropWhile isNameChar cs)
    rw [List.length_append] at h0
    exact h0
  have hlen2 : 1 ≤ (cs.takeWhile isNameChar).length := by
    cases hc : cs.takeWhile isNameChar with
    | nil => exact absurd hc hrun
    | cons a b => simp
  have hlen3 : rest.length
      ≤ ((cs.dropWhile isNameChar).drop energyLit.length).length := by
    rw [hrest]
    exact (List.dropWhile_sublist isFloatChar).length_le
  have hlen4 : ((cs.dropWhile isNameChar).drop energyLit.length).length
      ≤ (cs.dropWhile isNameChar).length := by
    rw [List.length_drop]
    omega
  omega

theorem scanEnergyF_nil (f : Nat) : scanEnergyF f [] = [] := by
  cases f with
  | zero => rfl
  | succ f => rfl

theorem scanEnergyF_congr (f1 : Nat) : ∀ (f2 : Nat) (cs : List Char),
    cs.length ≤ f1 → cs.length ≤ f2 → scanEnergyF f1 cs = scanEnergyF f2 cs := by
  induction f1 with
  | zero =>
    intro f2 cs h1 h2
    have hnil : cs = [] := List.eq_nil_of_length_eq_zero (by omega)
    subst hnil
    rw [scanEnergyF_nil, scanEnergyF_nil]
  | succ f1 ih =>
    intro f2 cs h1 h2
    cases cs with
    | nil => rw [scanEnergyF_nil, scanEnergyF_nil]
    | cons c t =>
      cases f2 with
      | zero => simp at h2
      | succ f2 =>
        show scanEnergyF (f1 + 1) (c :: t) = scanEnergyF (f2 + 1) (c :: t)
        simp only [scanEnergyF]
        cases hT : tryEnergy (c :: t) with
        | some pr =>
          rcases pr with ⟨pr, rest⟩
          have hlen := (tryEnergy_some_parts (c :: t) pr rest hT).2.2
          have hlc : (c :: t).length = t.length + 1 := by simp
          exact congrArg (List.cons pr) (ih f2 rest (by omega) (by omega))
        | none =>
          have hlc : (c :: t).length = t.length + 1 := by simp
          exact ih f2 t (by omega) (by omega)

theorem scanEnergy_cons_match (c : Char) (t : List Char) (pr : List Char × List Char)
    (rest : List Char) (h : tryEnergy (c :: t) = some (pr, rest)) :
    scanEnergy (c :: t) = pr :: scanEnergy rest := by
  unfold scanEnergy
  show scanEnergyF (t.length + 1) (c :: t) = pr :: scanEnergyF rest.length rest
  simp only [scanEnergyF]
  rw [h]
  have hlen := (tryEnergy_some_parts (c :: t) pr rest h).2.2
  have hlc : (c :: t).length = t.length + 1 := by simp
  exact congrArg (List.cons pr) (scanEnergyF_congr t.length rest.length rest (by omega) (by omega))

theorem scanEnergy_cons_skip (c : Char) (t : List Char)
    (h : tryEnergy (c :: t) = none) :
    scanEnergy (c :: t) = scanEnergy t := by
  unfold scanEnergy
  show scanEnergyF (t.length + 1) (c :: t) = scanEnergyF t.length t
  simp only [scanEnergyF]
  rw [h]

theorem scanEnergy_skip_prefix (pre rest : List Char)
    (h : ∀ i, i < pre.length → tryEnergy ((pre ++ rest).drop i) = none) :
    scanEnergy (pre ++ rest) = scanEnergy rest := by
  induction pre with
  | nil => rfl
  | cons c pre' ih =>
    have h0 : tryEnergy (c :: (pre' ++ rest)) = none := by
      have := h 0 (by simp)
      simpa using this
    show scanEnergy (c :: (pre' ++ rest)) = scanEnergy rest
    rw [scanEnergy_cons_skip c (pre' ++ rest) h0]
    apply ih
    intro i hi
    have := h (i + 1) (by simpa using Nat.succ_lt_succ hi)
    simpa [List.drop_succ_cons] using this

theorem tryEnergy_match (nm fl suf : List Char)
    (hnm : nm.all isNameChar = true) (hg : groupOk nm = true)
    (hfl : fl ≠ []) (hfla : fl.all isFloatChar = true)
    (hsuf : headSat isFloatChar suf = false) :
    tryEnergy (nm ++ (energyLit ++ (fl ++ suf))) = some ((nm, fl), suf) := by
  have hb : headSat isNameChar (energyLit ++ (fl ++ suf)) = false := rfl
  have htw := takeWhile_all_append nm (energyLit ++ (fl ++ suf)) isNameChar hnm hb
  have htw2 := takeWhile_all_append fl suf isFloatChar hfla hsuf
  unfold tryEnergy
  rw [htw.1, htw.2, if_pos hg,
    if_pos (isPrefixOf_append_self energyLit (fl ++ suf)),
    List.drop_left energyLit (fl ++ suf), htw2.1, htw2.2]
  rw [if_neg (by simpa [List.isEmpty_iff] using hfl)]

theorem tryEnergy_fail (nm rest2 : List Char) (hnm : nm.all isNameChar = true)
    (hb : headSat isNameChar rest2 = false) (hg : groupOk nm = false) :
    tryEnergy (nm ++ rest2) = none := by
  have htw := takeWhile_all_append nm rest2 isNameChar hnm hb
  unfold tryEnergy
  rw [htw.1, if_neg (by simp [hg])]

theorem scanEnergy_in_name (nm fl suf : List Char)
    (hnm : nm.all isNameChar = true)
    (hex : ∃ i, groupOk (nm.drop i) = true)
    (hfl : fl ≠ []) (hfla : fl.all isFloatChar = true)
    (hsuf : headSat isFloatChar suf = false) :
    ∃ nm2, scanEnergy (nm ++ (energyLit ++ (fl ++ suf)))
      = (nm2, fl) :: scanEnergy suf := by
  induction nm with
  | nil =>
    obtain ⟨i, hi⟩ := hex
    rw [List.drop_nil] at hi
    exact absurd hi (by decide)
  | cons ch nm' ih =>
    by_cases hg : groupOk (ch :: nm') = true
    · refine ⟨ch :: nm', ?_⟩
      have hm := tryEnergy_match (ch :: nm') fl suf hnm hg hfl hfla hsuf
      exact scanEnergy_cons_match ch (nm' ++ (energyLit ++ (fl ++ suf)))
        (ch :: nm', fl) suf hm
    · have hb : headSat isNameChar (energyLit ++ (fl ++ suf)) = false := rfl
      have hfail : tryEnergy ((ch :: nm') ++ (energyLit ++ (fl ++ suf))) = none :=
        tryEnergy_fail (ch :: nm') _ hnm hb (by simpa using hg)
      have hnm' : nm'.all isNameChar = true := by
        simp only [List.all_cons, Bool.and_eq_true] at hnm
        exact hnm.2
      have hex' : ∃ i, groupOk (nm'.drop i) = true := by
        obtain ⟨i, hi⟩ := hex
        cases i with
        | zero => exact absurd hi hg
        | succ j => exact ⟨j, by simpa [List.drop_succ_cons] using hi⟩
      obtain ⟨nm2, h2⟩ := ih hnm' hex'
      refine ⟨nm2, ?_⟩
      show scanEnergy (ch :: (nm' ++ (energyLit ++ (fl ++ suf)))) = _
      rw [scanEnergy_cons_skip ch (nm' ++ (energyLit ++ (fl ++ suf))) hfail, h2]

theorem getLast?_drop_eq (l : List Char) (i : Nat) (h : i < l.length) :
    (l.drop i).getLast? = l.getLast? := by
  induction l generalizing i with
  | nil => simp at h
  | cons c t ih =>
    cases i with
    | zero => rfl
    | succ j =>
      have hj : j < t.length := by simpa using h
      rw [List.drop_succ_cons, ih j hj]
      cases t with
      | nil => simp at hj
      | cons a b => rfl

theorem mem_of_getLast?_eq (l : List Char) (a : Char) (h : l.getLast? = some a) : a ∈ l := by
  obtain ⟨hne, heq⟩ := List.mem_getLast?_eq_getLast (l := l) (x := a) (by rw [h]; rfl)
  rw [heq]
  exact List.getLast_mem hne

theorem takeWhile_all_false (A B : List Char) (p : Char → Bool) (hA : A.all p = false) :
    (A ++ B).takeWhile p = A.takeWhile p ∧ (A.takeWhile p).length < A.length := by
  induction A with
  | nil => simp at hA
  | cons c t ih =>
    cases hc : p c with
    | false =>
      constructor
      · show List.takeWhile p (c :: (t ++ B)) = _
        simp [List.takeWhile_cons, hc]
      · simp [List.takeWhile_cons, hc]
    | true =>
      have ht : t.all p = false := by simpa [List.all_cons, hc] using hA
      have iht := ih ht
      constructor
      · show List.takeWhile p (c :: (t ++ B)) = _
        simp only [List.takeWhile_cons, hc, if_true]
        rw [iht.1]
      · simp only [List.takeWhile_cons, hc, if_true, List.length_cons]
        have := iht.2
        omega

theorem tryEnergy_none_in_pre (pre tail0 : List Char)
    (hb : ∀ ch, pre.getLast? = some ch → isNameChar ch = false)
    (hlitfree : ∀ i, i < pre.length →
      energyLit.isPrefixOf ((pre ++ tail0).drop i) = false) :
    ∀ i, i < pre.length → tryEnergy ((pre ++ tail0).drop i) = none := by
  intro i hi
  cases hT : tryEnergy ((pre ++ tail0).drop i) with
  | none => rfl
  | some pr =>
    exfalso
    rcases pr with ⟨pr, rest⟩
    have hparts := tryEnergy_some_parts _ pr rest hT
    have hsplit : (pre ++ tail0).drop i = pre.drop i ++ tail0 := by
      rw [List.drop_append_eq_append_drop]
      have h0 : i - pre.length = 0 := by omega
      rw [h0]
      rfl
    have hDall : (pre.drop i).all isNameChar = false := by
      cases hall : (pre.drop i).all isNameChar with
      | false => rfl
      | true =>
        exfalso
        have hne : pre.drop i ≠ [] := by
          intro hh
          have hlen := congrArg List.length hh
          rw [List.length_drop] at hlen
          simp at hlen
          omega
        obtain ⟨ch, hch⟩ : ∃ ch, (pre.drop i).getLast? = some ch := by
          cases hq : (pre.drop i).getLast? with
          | none => exact absurd (List.getLast?_eq_none_iff.mp hq) hne
          | some ch => exact ⟨ch, rfl⟩
        have hmem : ch ∈ pre.drop i := mem_of_getLast?_eq _ ch hch
        have hchname : isNameChar ch = true := by
          rw [List.all_eq_true] at hall
          exact hall ch hmem
        have hfalse : isNameChar ch = false := by
          apply hb ch
          rw [← getLast?_drop_eq pre i hi]
          exact hch
        rw [hchname] at hfalse
        exact absurd hfalse (by simp)
    have hrun := takeWhile_all_false (pre.drop i) tail0 isNameChar hDall
    have hlit := hparts.2.1
    rw [dropWhile_eq_drop_len, hsplit, hrun.1] at hlit
    have hk : ((pre.drop i).takeWhile isNameChar).length < pre.length - i := by
      have h1 := hrun.2
      rw [List.length_drop] at h1
      omega
    have hdd : (pre.drop i ++ tail0).drop ((pre.drop i).takeWhile isNameChar).length
        = (pre ++ tail0).drop (i + ((pre.drop i).takeWhile isNameChar).length) := by
      rw [← hsplit]
      exact List.drop_drop _ _ _
    rw [hdd] at hlit
    have hcontra := hlitfree (i + ((pre.drop i).takeWhile isNameChar).length) (by omega)
    rw [hcontra] at hlit
    exact absurd hlit (by simp)

theorem parseAll_mem (ms : List (List Char × List Char)) (qs : List ℚ)
    (h : parseAll ms = some qs) (fl : List Char) (q : ℚ)
    (hfl : fl ∈ ms.map Prod.snd) (hq : parsePyFloat fl = some q) : q ∈ qs := by
  induction ms generalizing qs with
  | nil => simp at hfl
  | cons p t ih =>
    unfold parseAll at h
    cases hp : parsePyFloat p.2 with
    | none => rw [hp] at h; exact absurd h (by simp)
    | some q1 =>
      rw [hp] at h
      cases ht : parseAll t with
      | none => rw [ht] at h; exact absurd h (by simp)
      | some qs' =>
        rw [ht] at h
        have hqs : qs = q1 :: qs' := (Option.some.inj h).symm
        subst hqs
        rcases List.mem_map.mp hfl with ⟨pr, hpr, hsnd⟩
        rcases List.mem_cons.mp hpr with rfl | hmem
        · rw [hsnd] at hp
          rw [hp] at hq
          have hqq : q = q1 := (Option.some.inj hq).symm
          subst hqq
          exact List.mem_cons_self _ _
        · exact List.mem_cons_of_mem _ (ih qs' ht (List.mem_map.mpr ⟨pr, hmem, hsnd⟩))

/-- C6 counterexample: the text `a--- : Energy Consumed = 5` contains an
occurrence of `<name-token> : Energy Consumed = <float>` whose name
token `a---` is composed of word characters and literal hyphens, yet —
because the group `\w+-?\w*-?\w*` admits at most two hyphens and every
word-character-led suffix of `a---` still carries three — findall
returns no match at all, and the stored energy total is 0.0 rather than
5.0.  So "every occurrence ... contributes its float value" is false as
stated. -/
theorem C6_counterexample :
    ("a---".toList).all isNameChar = true
      ∧ "a--- : Energy Consumed = 5".toList
        = "a---".toList ++ (energyLit ++ ("5".toList ++ []))
      ∧ parsePyFloat "5".toList = some 5
      ∧ scanEnergy "a--- : Energy Consumed = 5".toList = []
      ∧ parseAll (scanEnergy "a--- : Energy Consumed = 5".toList) = some [] := by
  refine ⟨by decide, by decide, ?_, by decide, by decide⟩
  have h5 : parsePyFloat "5".toList
      = some (((5 : Nat) : ℚ) + ((0 : Nat) : ℚ) / 10 ^ (0 : Nat)) := by rfl
  rw [h5]
  norm_num

/-- C6 (amended): an occurrence of `<name> : Energy Consumed = <float>`
contributes its float value to the label's energy sum provided (a) the
name token contains a word character after whose position at most two
hyphens occur (the regex group `\w+-?\w*-?\w*` then matches a suffix of
the name), and (b) the occurrence is the first one — no position inside
the preceding text starts the literal ` : Energy Consumed = ` (an
occurrence overlapping an earlier match is consumed by the scan).  Here:
for a maximal first occurrence, its float token appears among the findall
captures and its parsed value is among the summands. -/
theorem C6_first_occurrence_contributes :
    ∀ (pre nm fl suf : List Char) (q : ℚ),
      nm.all isNameChar = true →
      (∃ i, groupOk (nm.drop i) = true) →
      fl ≠ [] → fl.all isFloatChar = true →
      headSat isFloatChar suf = false →
      (∀ ch, pre.getLast? = some ch → isNameChar ch = false) →
      (∀ i, i < pre.length →
        energyLit.isPrefixOf ((pre ++ (nm ++ (energyLit ++ (fl ++ suf)))).drop i) = false) →
      parsePyFloat fl = some q →
      fl ∈ (scanEnergy (pre ++ (nm ++ (energyLit ++ (fl ++ suf))))).map Prod.snd
        ∧ ∀ qs, parseAll (scanEnergy (pre ++ (nm ++ (energyLit ++ (fl ++ suf)))))
            = some qs → q ∈ qs := by
  intro pre nm fl suf q hnm hex hfl hfla hsuf hb hlitfree hq
  have hnone := tryEnergy_none_in_pre pre (nm ++ (energyLit ++ (fl ++ suf))) hb hlitfree
  have hskip := scanEnergy_skip_prefix pre (nm ++ (energyLit ++ (fl ++ suf))) hnone
  obtain ⟨nm2, hscan⟩ := scanEnergy_in_name nm fl suf hnm hex hfl hfla hsuf
  constructor
  · rw [hskip, hscan]
    exact List.mem_map.mpr ⟨(nm2, fl), List.mem_cons_self _ _, rfl⟩
  · intro qs hqs
    rw [hskip] at hqs
    refine parseAll_mem _ qs hqs fl q ?_ hq
    rw [hscan]
    exact List.mem_map.mpr ⟨(nm2, fl), List.mem_cons_self _ _, rfl⟩

/-- Witness for the amended C6: in `a-b-c-d : Energy Consumed = 1.5` the
name has three hyphens, yet the float 1.5 is captured (via the suffix
`b-c-d`). -/
theorem C6_first_occurrence_contributes_witness :
    "1.5".toList ∈ (scanEnergy ([] ++ ("a-b-c-d".toList
      ++ (energyLit ++ ("1.5".toList ++ []))))).map Prod.snd :=
  (C6_first_occurrence_contributes [] "a-b-c-d".toList "1.5".toList []
    ((1 : ℚ) + (5 : ℚ) / 10 ^ (1 : Nat))
    (by decide) ⟨2, by decide⟩ (by decide) (by decide) rfl
    (by intro ch h; simp at h) (by intro i hi; simp at hi) (by rfl)).1

/-! ## Decimal rendering and parsing (JSON round trip) -/

theorem digitVal_digitChar (n : Nat) (h : n < 10) : digitVal (digitChar n) = n := by
  interval_cases n <;> rfl

theorem digitChar_isDigit (n : Nat) : (digitChar n).isDigit = true := by
  unfold digitChar
  split <;> rfl

theorem digitsToNat_append_singleton (xs : List Char) (c : Char) :
    digitsToNat (xs ++ [c]) = 10 * digitsToNat xs + digitVal c := by
  unfold digitsToNat
  rw [List.foldl_append]
  rfl

theorem natToDigitsF_congr (f1 : Nat) : ∀ (f2 n : Nat), n < f1 → n < f2 →
    natToDigitsF f1 n = natToDigitsF f2 n := by
  induction f1 with
  | zero => intro f2 n h1 h2; omega
  | succ f1 ih =>
    intro f2 n h1 h2
    cases f2 with
    | zero => omega
    | succ f2 =>
      simp only [natToDigitsF]
      by_cases hn : n < 10
      · rw [if_pos hn, if_pos hn]
      · rw [if_neg hn, if_neg hn]
        have hd : n / 10 < n := Nat.div_lt_self (by omega) (by omega)
        rw [ih f2 (n / 10) (by omega) (by omega)]

theorem natToDigits_eq (n : Nat) :
    natToDigits n
      = if n < 10 then [digitChar n]
        else natToDigits (n / 10) ++ [digitChar (n % 10)] := by
  have hstep : natToDigitsF (n + 1) n
      = if n < 10 then [digitChar n]
        else natToDigitsF n (n / 10) ++ [digitChar (n % 10)] := rfl
  show natToDigitsF (n + 1) n = _
  rw [hstep]
  by_cases hn : n < 10
  · rw [if_pos hn, if_pos hn]
  · rw [if_neg hn, if_neg hn]
    have hd : n / 10 < n := Nat.div_lt_self (by omega) (by omega)
    show natToDigitsF n (n / 10) ++ _ = natToDigitsF (n / 10 + 1) (n / 10) ++ _
    rw [natToDigitsF_congr n (n / 10 + 1) (n / 10) (by omega) (by omega)]

theorem digitsToNat_natToDigits (n : Nat) : digitsToNat (natToDigits n) = n := by
  induction n using Nat.strong_induction_on with
  | _ n ih =>
    rw [natToDigits_eq n]
    by_cases hn : n < 10
    · rw [if_pos hn]
      show List.foldl (fun a c => 10 * a + digitVal c) 0 [digitChar n] = n
      simp only [List.foldl_cons, List.foldl_nil]
      rw [Nat.mul_zero, Nat.zero_add]
      exact digitVal_digitChar n hn
    · rw [if_neg hn]
      rw [digitsToNat_append_singleton]
      have h1 := ih (n / 10) (Nat.div_lt_self (by omega) (by omega))
      rw [h1, digitVal_digitChar (n % 10) (Nat.mod_lt n (by omega))]
      omega

theorem natToDigits_ne_nil (n : Nat) : natToDigits n ≠ [] := by
  rw [natToDigits_eq n]
  by_cases hn : n < 10
  · rw [if_pos hn]
    simp
  · rw [if_neg hn]
    simp

theorem natToDigits_all_digit (n : Nat) : (natToDigits n).all Char.isDigit = true := by
  induction n using Nat.strong_induction_on with
  | _ n ih =>
    rw [natToDigits_eq n]
    by_cases hn : n < 10
    · rw [if_pos hn]
      simp [digitChar_isDigit]
    · rw [if_neg hn]
      rw [List.all_append]
      have h1 := ih (n / 10) (Nat.div_lt_self (by omega) (by omega))
      simp [h1, digitChar_isDigit]

theorem natToDigits_length_le (k : Nat) : ∀ m, m < 10 ^ k → 1 ≤ k →
    (natToDigits m).length ≤ k := by
  induction k with
  | zero => intro m h1 h2; omega
  | succ k ih =>
    intro m h1 h2
    rw [natToDigits_eq m]
    by_cases hm : m < 10
    · rw [if_pos hm]
      simp
    · rw [if_neg hm]
      rw [List.length_append]
      have hk : 1 ≤ k := by
        by_contra hk0
        have hk1 : k = 0 := by omega
        subst hk1
        have : m < 10 := by simpa using h1
        omega
      have hdiv : m / 10 < 10 ^ k := by
        rw [Nat.div_lt_iff_lt_mul (by omega)]
        calc m < 10 ^ (k + 1) := h1
          _ = 10 ^ k * 10 := by ring
      have h2 := ih (m / 10) hdiv hk
      simp only [List.length_cons, List.length_nil]
      omega

theorem digitsToNat_replicate_zero (j : Nat) (xs : List Char) :
    digitsToNat (List.replicate j '0' ++ xs) = digitsToNat xs := by
  induction j with
  | zero => rfl
  | succ j ih =>
    show digitsToNat ('0' :: (List.replicate j '0' ++ xs)) = _
    unfold digitsToNat
    simp only [List.foldl_cons]
    exact ih

theorem padicF_zero_n (f p : Nat) : padicF f p 0 = 0 := by
  cases f with
  | zero => rfl
  | succ f =>
    show (if 1 < p ∧ p ∣ 0 ∧ 0 < 0 then padicF f p (0 / p) + 1 else 0) = 0
    rw [if_neg (by omega)]

theorem padicF_succ (f p n : Nat) :
    padicF (f + 1) p n
      = if 1 < p ∧ p ∣ n ∧ 0 < n then padicF f p (n / p) + 1 else 0 := rfl

theorem padicF_congr (f1 : Nat) : ∀ (f2 n p : Nat), n ≤ f1 → n ≤ f2 →
    padicF f1 p n = padicF f2 p n := by
  induction f1 with
  | zero =>
    intro f2 n p h1 h2
    have hn : n = 0 := by omega
    subst hn
    rw [padicF_zero_n, padicF_zero_n]
  | succ f1 ih =>
    intro f2 n p h1 h2
    cases n with
    | zero => rw [padicF_zero_n, padicF_zero_n]
    | succ n0 =>
      cases f2 with
      | zero => omega
      | succ f2 =>
        rw [padicF_succ, padicF_succ]
        by_cases hc : 1 < p ∧ p ∣ (n0 + 1) ∧ 0 < n0 + 1
        · rw [if_pos hc, if_pos hc]
          have hlt : (n0 + 1) / p < n0 + 1 := Nat.div_lt_self (by omega) hc.1
          rw [ih f2 ((n0 + 1) / p) p (by omega) (by omega)]
        · rw [if_neg hc, if_neg hc]

theorem padic_eq (p n : Nat) :
    padic p n = if 1 < p ∧ p ∣ n ∧ 0 < n then padic p (n / p) + 1 else 0 := by
  unfold padic
  cases n with
  | zero =>
    rw [padicF_zero_n, if_neg (by omega)]
  | succ n0 =>
    rw [padicF_succ]
    by_cases hc : 1 < p ∧ p ∣ (n0 + 1) ∧ 0 < n0 + 1
    · rw [if_pos hc, if_pos hc]
      have hlt : (n0 + 1) / p < n0 + 1 := Nat.div_lt_self (by omega) hc.1
      rw [padicF_congr n0 ((n0 + 1) / p) ((n0 + 1) / p) p (by omega) (le_refl _)]
    · rw [if_neg hc, if_neg hc]

theorem pow_padic_dvd (p n : Nat) : p ^ (padic p n) ∣ n := by
  induction n using Nat.strong_induction_on with
  | _ n ih =>
    rw [padic_eq]
    by_cases hc : 1 < p ∧ p ∣ n ∧ 0 < n
    · rw [if_pos hc]
      have hlt : n / p < n := Nat.div_lt_self hc.2.2 hc.1
      obtain ⟨t, ht⟩ := ih (n / p) hlt
      refine ⟨t, ?_⟩
      have hcan : n / p * p = n := Nat.div_mul_cancel hc.2.1
      have hgen : p ^ padic p (n / p) * t * p = n := by
        rw [← ht]
        exact hcan
      rw [pow_succ]
      calc n = p ^ padic p (n / p) * t * p := hgen.symm
        _ = p ^ padic p (n / p) * p * t := by ring
    · rw [if_neg hc]
      simp

theorem not_dvd_div_pow_padic (p : Nat) (hp : 1 < p) (n : Nat) (hn : 0 < n) :
    ¬ p ∣ n / p ^ (padic p n) := by
  induction n using Nat.strong_induction_on with
  | _ n ih =>
    rw [padic_eq]
    by_cases hc : 1 < p ∧ p ∣ n ∧ 0 < n
    · rw [if_pos hc]
      have hlt : n / p < n := Nat.div_lt_self hn hp
      have hpos : 0 < n / p := Nat.div_pos (Nat.le_of_dvd hn hc.2.1) (by omega)
      have h1 := ih (n / p) hlt hpos
      rw [pow_succ, show p ^ padic p (n / p) * p = p * p ^ padic p (n / p) from by ring,
        ← Nat.div_div_eq_div_mul]
      exact h1
    · rw [if_neg hc]
      simp only [pow_zero, Nat.div_one]
      intro hdvd
      push_neg at hc
      have := hc hp hdvd
      omega

theorem padic_pow_mul (p : Nat) (hp : 1 < p) (m : Nat) (hm : 0 < m) (hnd : ¬ p ∣ m)
    (c : Nat) : padic p (p ^ c * m) = c := by
  induction c with
  | zero =>
    rw [pow_zero, one_mul, padic_eq, if_neg (fun hcc => hnd hcc.2.1)]
  | succ c ih =>
    rw [padic_eq, if_pos ⟨hp, ⟨p ^ c * m, by ring⟩, Nat.mul_pos (pow_pos (by omega) (c + 1)) hm⟩]
    have hdiv : p ^ (c + 1) * m / p = p ^ c * m := by
      rw [pow_succ, show p ^ c * p * m = p * (p ^ c * m) from by ring]
      exact Nat.mul_div_cancel_left _ (by omega)
    rw [hdiv, ih]

theorem den_decomp (d k : Nat) (hd : 0 < d) (hdvd : d ∣ 10 ^ k) :
    d = 2 ^ padic 2 d * 5 ^ padic 5 d := by
  have h2 : 2 ^ padic 2 d ∣ d := pow_padic_dvd 2 d
  have hdm : 2 ^ padic 2 d * (d / 2 ^ padic 2 d) = d := Nat.mul_div_cancel' h2
  have hmpos : 0 < d / 2 ^ padic 2 d := by
    rcases Nat.eq_zero_or_pos (d / 2 ^ padic 2 d) with h | h
    · rw [h, Nat.mul_zero] at hdm
      omega
    · exact h
  have hm2 : ¬ 2 ∣ d / 2 ^ padic 2 d := not_dvd_div_pow_padic 2 (by omega) d hd
  have hmd : d / 2 ^ padic 2 d ∣ 2 ^ k * 5 ^ k := by
    have hmdd : d / 2 ^ padic 2 d ∣ d := by
      refine ⟨2 ^ padic 2 d, ?_⟩
      rw [Nat.mul_comm (d / 2 ^ padic 2 d) (2 ^ padic 2 d)]
      exact hdm.symm
    calc d / 2 ^ padic 2 d ∣ d := hmdd
      _ ∣ 10 ^ k := hdvd
      _ = 2 ^ k * 5 ^ k := by rw [show (10 : ℕ) = 2 * 5 from rfl, Nat.mul_pow]
  have hcop : Nat.Coprime (d / 2 ^ padic 2 d) (2 ^ k) :=
    Nat.Coprime.pow_right k ((Nat.Prime.coprime_iff_not_dvd Nat.prime_two).mpr hm2).symm
  have hm5 : d / 2 ^ padic 2 d ∣ 5 ^ k := Nat.Coprime.dvd_of_dvd_mul_left hcop hmd
  have h5 : 5 ^ padic 5 (d / 2 ^ padic 2 d) ∣ d / 2 ^ padic 2 d :=
    pow_padic_dvd 5 (d / 2 ^ padic 2 d)
  have hmr : 5 ^ padic 5 (d / 2 ^ padic 2 d)
      * (d / 2 ^ padic 2 d / 5 ^ padic 5 (d / 2 ^ padic 2 d)) = d / 2 ^ padic 2 d :=
    Nat.mul_div_cancel' h5
  have hrpos : 0 < d / 2 ^ padic 2 d / 5 ^ padic 5 (d / 2 ^ padic 2 d) := by
    rcases Nat.eq_zero_or_pos (d / 2 ^ padic 2 d / 5 ^ padic 5 (d / 2 ^ padic 2 d)) with h | h
    · rw [h, Nat.mul_zero] at hmr
      omega
    · exact h
  have hr5 : ¬ 5 ∣ d / 2 ^ padic 2 d / 5 ^ padic 5 (d / 2 ^ padic 2 d) :=
    not_dvd_div_pow_padic 5 (by omega) (d / 2 ^ padic 2 d) hmpos
  have hrd : d / 2 ^ padic 2 d / 5 ^ padic 5 (d / 2 ^ padic 2 d) ∣ 5 ^ k := by
    refine dvd_trans ?_ hm5
    refine ⟨5 ^ padic 5 (d / 2 ^ padic 2 d), ?_⟩
    rw [Nat.mul_comm (d / 2 ^ padic 2 d / 5 ^ padic 5 (d / 2 ^ padic 2 d))
      (5 ^ padic 5 (d / 2 ^ padic 2 d))]
    exact hmr.symm
  have hrcop : Nat.Coprime (d / 2 ^ padic 2 d / 5 ^ padic 5 (d / 2 ^ padic 2 d)) (5 ^ k) :=
    Nat.Coprime.pow_right k ((Nat.Prime.coprime_iff_not_dvd Nat.prime_five).mpr hr5).symm
  have hr1 : d / 2 ^ padic 2 d / 5 ^ padic 5 (d / 2 ^ padic 2 d) = 1 :=
    Nat.Coprime.eq_one_of_dvd hrcop hrd
  rw [hr1, Nat.mul_one] at hmr
  have h5A : ¬ (5 : ℕ) ∣ 2 ^ padic 2 d := by
    intro hdd
    have h25 := Nat.Prime.dvd_of_dvd_pow Nat.prime_five hdd
    omega
  have hPB : padic 5 d = padic 5 (d / 2 ^ padic 2 d) := by
    conv_lhs => rw [← hdm, ← hmr]
    rw [show 2 ^ padic 2 d * 5 ^ padic 5 (d / 2 ^ padic 2 d)
        = 5 ^ padic 5 (d / 2 ^ padic 2 d) * 2 ^ padic 2 d from by ring]
    exact padic_pow_mul 5 (by omega) (2 ^ padic 2 d) (pow_pos (by omega) _) h5A _
  rw [hPB, hmr, hdm]

theorem den_dvd_decExp (q : ℚ) (h : IsDecimal q) : q.den ∣ 10 ^ decExp q := by
  obtain ⟨n, k, hq⟩ := h
  have hcast : ((10 : ℚ) ^ k) = (((10 ^ k : ℤ) : ℚ)) := by push_cast; ring
  have hden : q.den ∣ ((10 : ℤ) ^ k).natAbs := by
    rw [hq, hcast]
    have hdd := Rat.den_dvd n ((10 : ℤ) ^ k)
    rw [Rat.divInt_eq_div] at hdd
    exact_mod_cast Int.natAbs_dvd_natAbs.mpr hdd
  have hden2 : q.den ∣ 10 ^ k := by
    have : ((10 : ℤ) ^ k).natAbs = 10 ^ k := by
      rw [Int.natAbs_pow]
      rfl
    rwa [this] at hden
  have hdec := den_decomp q.den k q.pos hden2
  unfold decExp
  calc q.den = 2 ^ padic 2 q.den * 5 ^ padic 5 q.den := hdec
    _ ∣ 2 ^ max (padic 2 q.den) (padic 5 q.den) * 5 ^ max (padic 2 q.den) (padic 5 q.den) :=
      Nat.mul_dvd_mul (pow_dvd_pow 2 (Nat.le_max_left _ _))
        (pow_dvd_pow 5 (Nat.le_max_right _ _))
    _ = 10 ^ max (padic 2 q.den) (padic 5 q.den) := by
      rw [show (10 : ℕ) = 2 * 5 from rfl, Nat.mul_pow]

theorem mul_pow_decExp_eq (q : ℚ) (h0 : 0 ≤ q) (hd : IsDecimal q) :
    q * 10 ^ decExp q = ((q.num.toNat * (10 ^ decExp q / q.den) : ℕ) : ℚ) := by
  have hdvd := den_dvd_decExp q hd
  have ht : q.den * (10 ^ decExp q / q.den) = 10 ^ decExp q := Nat.mul_div_cancel' hdvd
  have hnum : (q.num.toNat : ℤ) = q.num := Int.toNat_of_nonneg (Rat.num_nonneg.mpr h0)
  have hden0 : ((q.den : ℚ)) ≠ 0 := Nat.cast_ne_zero.mpr q.den_nz
  have htQ : (q.den : ℚ) * ((10 ^ decExp q / q.den : ℕ) : ℚ) = 10 ^ decExp q := by
    exact_mod_cast congrArg (fun n : ℕ => (n : ℚ)) ht
  have hnumQ : ((q.num.toNat : ℕ) : ℚ) = (q.num : ℚ) := by
    exact_mod_cast congrArg (fun z : ℤ => (z : ℚ)) hnum
  have hqden : (q.num : ℚ) = q * (q.den : ℚ) := (div_eq_iff hden0).mp (Rat.num_div_den q)
  apply mul_left_cancel₀ hden0
  calc (q.den : ℚ) * (q * 10 ^ decExp q)
      = (q * q.den) * 10 ^ decExp q := by ring
    _ = (q.num : ℚ) * 10 ^ decExp q := by rw [← hqden]
    _ = (q.num : ℚ) * ((q.den : ℚ) * ((10 ^ decExp q / q.den : ℕ) : ℚ)) := by rw [htQ]
    _ = (q.den : ℚ) * (((q.num.toNat : ℕ) : ℚ) * ((10 ^ decExp q / q.den : ℕ) : ℚ)) := by
        rw [hnumQ]
        ring
    _ = (q.den : ℚ) * ((q.num.toNat * (10 ^ decExp q / q.den) : ℕ) : ℚ) := by
        push_cast
        ring

theorem parsePyFloat_digits_dot_digits (A B : List Char)
    (hA : A.all Char.isDigit = true) (hAne : A ≠ [])
    (hB : B.all Char.isDigit = true) :
    parsePyFloat (A ++ '.' :: B)
      = some ((digitsToNat A : ℚ) + (digitsToNat B : ℚ) / 10 ^ B.length) := by
  have hAmem : '.' ∉ A := by
    intro hm
    rw [List.all_eq_true] at hA
    exact absurd (hA '.' hm) (by decide)
  have hBmem : '.' ∉ B := by
    intro hm
    rw [List.all_eq_true] at hB
    exact absurd (hB '.' hm) (by decide)
  have hcount : (A ++ '.' :: B).count '.' = 1 := by
    simp [List.count_append, List.count_cons, List.count_eq_zero.mpr hAmem,
      List.count_eq_zero.mpr hBmem]
  have hcp : 0 < (A ++ '.' :: B).countP (·.isDigit) := by
    cases hA0 : A with
    | nil => exact absurd hA0 hAne
    | cons c t =>
      rw [hA0, List.all_eq_true] at hA
      have hcd : c.isDigit = true := hA c (List.mem_cons_self c t)
      exact List.countP_pos_iff.mpr ⟨c, List.mem_append_left _ (List.mem_cons_self c t), hcd⟩
  have hAall : A.all (fun c => decide (c ≠ '.')) = true := by
    rw [List.all_eq_true]
    intro c hc
    simp only [decide_eq_true_eq]
    intro hcd
    exact hAmem (hcd ▸ hc)
  have hhead : headSat (fun c => decide (c ≠ '.')) ('.' :: B) = false := by
    simp [headSat]
  have htw := takeWhile_all_append A ('.' :: B) (fun c => decide (c ≠ '.')) hAall hhead
  unfold parsePyFloat
  rw [if_pos ⟨by omega, hcp⟩, htw.1, htw.2]
  rw [show ('.' :: B).drop 1 = B from rfl]

theorem parse_renderFloat (q : ℚ) (h0 : 0 ≤ q) (hd : IsDecimal q) :
    parsePyFloat (renderFloat q) = some q := by
  unfold renderFloat
  set k := decExp q with hkdef
  set M := (q * 10 ^ k).num.natAbs with hMdef
  have hM : q * 10 ^ k = ((q.num.toNat * (10 ^ k / q.den) : ℕ) : ℚ) :=
    mul_pow_decExp_eq q h0 hd
  have hnumM : M = q.num.toNat * (10 ^ k / q.den) := by
    rw [hMdef, hM, Rat.num_natCast, Int.natAbs_ofNat]
  have hMq : ((M : ℕ) : ℚ) = q * 10 ^ k := by
    rw [hnumM, ← hM]
  have hpow0 : ((10 : ℚ)) ^ k ≠ 0 := by positivity
  by_cases hk : k = 0
  · rw [if_pos hk]
    rw [show (['.', '0'] : List Char) = '.' :: ['0'] from rfl]
    rw [parsePyFloat_digits_dot_digits _ _ (natToDigits_all_digit _)
      (natToDigits_ne_nil _) (by decide)]
    rw [digitsToNat_natToDigits, show digitsToNat ['0'] = 0 from rfl]
    rw [hk, pow_zero, mul_one] at hMq
    rw [hMq]
    norm_num
  · rw [if_neg hk]
    rw [parsePyFloat_digits_dot_digits _ _ (natToDigits_all_digit _)
      (natToDigits_ne_nil _) ?hBd]
    case hBd =>
      unfold padZeros
      rw [List.all_append]
      have h1 : (List.replicate (k - (natToDigits (M % 10 ^ k)).length) '0').all
          Char.isDigit = true := by
        rw [List.all_eq_true]
        intro c hc
        rw [List.eq_of_mem_replicate hc]
        decide
      rw [h1, natToDigits_all_digit]
      rfl
    have hk1 : 1 ≤ k := by omega
    have hDpos : 0 < 10 ^ k := by positivity
    have hmod : M % 10 ^ k < 10 ^ k := Nat.mod_lt _ hDpos
    have hlen : (natToDigits (M % 10 ^ k)).length ≤ k :=
      natToDigits_length_le _ _ hmod hk1
    have hlenB : (padZeros k (natToDigits (M % 10 ^ k))).length = k := by
      unfold padZeros
      rw [List.length_append, List.length_replicate]
      omega
    have hvalB : digitsToNat (padZeros k (natToDigits (M % 10 ^ k))) = M % 10 ^ k := by
      unfold padZeros
      rw [digitsToNat_replicate_zero, digitsToNat_natToDigits]
    rw [digitsToNat_natToDigits, hvalB, hlenB]
    have hdm := Nat.div_add_mod M (10 ^ k)
    have hQ := congrArg (fun n : ℕ => (n : ℚ)) hdm
    push_cast at hQ
    have hgoal : ((M / 10 ^ k : ℕ) : ℚ) + ((M % 10 ^ k : ℕ) : ℚ) / 10 ^ k = q := by
      have hq2 : q = ((M : ℕ) : ℚ) / 10 ^ k := by
        rw [hMq]
        field_simp
      rw [hq2]
      field_simp
      linear_combination hQ
    rw [hgoal]

theorem contains_dot_false (l : List Char) (h : l.all Char.isDigit = true) :
    l.contains '.' = false := by
  have hmem : '.' ∉ l := by
    intro hm
    rw [List.all_eq_true] at h
    exact absurd (h '.' hm) (by decide)
  simp [List.elem_eq_mem, hmem]

theorem head?_append_of_ne_nil (A B : List Char) (h : A ≠ []) :
    (A ++ B).head? = A.head? := by
  cases A with
  | nil => exact absurd rfl h
  | cons c t => rfl

theorem head?_digits_ne_dash (A : List Char) (hne : A ≠ [])
    (hall : A.all Char.isDigit = true) : ¬ A.head? = some '-' := by
  cases A with
  | nil => exact absurd rfl hne
  | cons c t =>
    rw [List.all_eq_true] at hall
    have hc := hall c (List.mem_cons_self c t)
    simp only [List.head?_cons, Option.some.injEq]
    intro hcontra
    rw [hcontra] at hc
    exact absurd hc (by decide)

/-- The rendered form of any value the script can store is read back by
`json.load` as the structurally identical value: ints stay ints, floats
stay floats, with the same numeric value. -/
theorem loadNum_renderNum_good (v : PyNum) (h : GoodVal v) :
    loadNum (renderNum v) = v := by
  cases v with
  | int n =>
    have hn : 0 ≤ n := h
    simp only [renderNum]
    rw [if_neg (by omega : ¬ n < 0), List.nil_append]
    unfold loadNum
    rw [if_neg (head?_digits_ne_dash _ (natToDigits_ne_nil _) (natToDigits_all_digit _))]
    unfold loadNumCore
    rw [if_neg (by rw [contains_dot_false _ (natToDigits_all_digit n.natAbs)]; exact Bool.false_ne_true)]
    rw [digitsToNat_natToDigits]
    congr 1
    exact Int.natAbs_of_nonneg hn
  | float q =>
    obtain ⟨h0, hd⟩ := h
    simp only [renderNum]
    rw [if_neg (not_lt.mpr h0), List.nil_append]
    have hdash : ¬ (renderFloat q).head? = some '-' := by
      unfold renderFloat
      by_cases hk : decExp q = 0
      · rw [if_pos hk, head?_append_of_ne_nil _ _ (natToDigits_ne_nil _)]
        exact head?_digits_ne_dash _ (natToDigits_ne_nil _) (natToDigits_all_digit _)
      · rw [if_neg hk, head?_append_of_ne_nil _ _ (natToDigits_ne_nil _)]
        exact head?_digits_ne_dash _ (natToDigits_ne_nil _) (natToDigits_all_digit _)
    have hdot : (renderFloat q).contains '.' = true := by
      have hmem : '.' ∈ renderFloat q := by
        unfold renderFloat
        by_cases hk : decExp q = 0
        · rw [if_pos hk]
          exact List.mem_append_right _ (List.mem_cons_self _ _)
        · rw [if_neg hk]
          exact List.mem_append_right _ (List.mem_cons_self _ _)
      simp [List.elem_eq_mem, hmem]
    unfold loadNum
    rw [if_neg hdash]
    unfold loadNumCore
    rw [if_pos hdot, parse_renderFloat q h0 hd]

/-! ## The values the pipeline stores are good -/

theorem parsePyFloat_good (s : List Char) (q : ℚ) (h : parsePyFloat s = some q) :
    0 ≤ q ∧ IsDecimal q := by
  unfold parsePyFloat at h
  by_cases hc : (s.count '.' ≤ 1 ∧ 0 < s.countP (·.isDigit))
  · rw [if_pos hc] at h
    have hq := Option.some.inj h
    constructor
    · rw [← hq]
      positivity
    · rw [← hq]
      refine ⟨(digitsToNat (s.takeWhile (· ≠ '.')) : ℤ)
          * 10 ^ ((s.dropWhile (· ≠ '.')).drop 1).length
          + digitsToNat ((s.dropWhile (· ≠ '.')).drop 1),
        ((s.dropWhile (· ≠ '.')).drop 1).length, ?_⟩
      push_cast
      field_simp
  · rw [if_neg hc] at h
    exact absurd h (by simp)

theorem isDecimal_zero : IsDecimal 0 := ⟨0, 0, by norm_num⟩

theorem isDecimal_add (a b : ℚ) (ha : IsDecimal a) (hb : IsDecimal b) :
    IsDecimal (a + b) := by
  obtain ⟨n1, k1, h1⟩ := ha
  obtain ⟨n2, k2, h2⟩ := hb
  refine ⟨n1 * 10 ^ k2 + n2 * 10 ^ k1, k1 + k2, ?_⟩
  rw [h1, h2, div_add_div _ _ (pow_ne_zero k1 (by norm_num)) (pow_ne_zero k2 (by norm_num))]
  push_cast
  rw [pow_add]
  ring_nf

theorem sum_good (qs : List ℚ) (h : ∀ x ∈ qs, 0 ≤ x ∧ IsDecimal x) :
    0 ≤ qs.sum ∧ IsDecimal qs.sum := by
  induction qs with
  | nil => exact ⟨le_refl 0, isDecimal_zero⟩
  | cons a t ih =>
    have ha := h a (List.mem_cons_self _ _)
    have ht := ih (fun x hx => h x (List.mem_cons_of_mem _ hx))
    rw [List.sum_cons]
    exact ⟨add_nonneg ha.1 ht.1, isDecimal_add _ _ ha.2 ht.2⟩

theorem parseAll_good (ms : List (List Char × List Char)) (qs : List ℚ)
    (h : parseAll ms = some qs) : ∀ x ∈ qs, 0 ≤ x ∧ IsDecimal x := by
  induction ms generalizing qs with
  | nil =>
    have hq : qs = [] := by
      unfold parseAll at h
      exact (Option.some.inj h).symm
    subst hq
    intro x hx
    simp at hx
  | cons p t ih =>
    unfold parseAll at h
    cases hp : parsePyFloat p.2 with
    | none => rw [hp] at h; exact absurd h (by simp)
    | some q1 =>
      rw [hp] at h
      cases ht : parseAll t with
      | none => rw [ht] at h; exact absurd h (by simp)
      | some qs' =>
        rw [ht] at h
        have hqs : qs = q1 :: qs' := (Option.some.inj h).symm
        subst hqs
        intro x hx
        rcases List.mem_cons.mp hx with rfl | hx2
        · exact parsePyFloat_good p.2 x hp
        · exact ih qs' ht x hx2

theorem insertA_allGood (d : List (String × PyNum)) (k : String) (v : PyNum)
    (hd : AllGood d) (hv : GoodVal v) : AllGood (insertA d k v) := by
  intro kv hkv
  unfold insertA at hkv
  split at hkv
  · rcases List.mem_map.mp hkv with ⟨p, hp, hpe⟩
    by_cases hpk : p.1 = k
    · rw [if_pos hpk] at hpe
      rw [← hpe]
      exact hv
    · rw [if_neg hpk] at hpe
      rw [← hpe]
      exact hd p hp
  · rcases List.mem_append.mp hkv with hkv1 | hkv2
    · exact hd kv hkv1
    · have : kv = (k, v) := by simpa using hkv2
      rw [this]
      exact hv

theorem stepTime_allGood (c : List Char) (label : String) (m : Metrics)
    (h1 : AllGood m.execution_time) (h2 : AllGood m.energy_consumption)
    (h3 : AllGood m.network_usage) :
    AllGood (stepTime c label m).execution_time ∧
      AllGood (stepTime c label m).energy_consumption ∧
      AllGood (stepTime c label m).network_usage := by
  unfold stepTime
  cases hF : findAfter execLit Char.isDigit c with
  | none => exact ⟨h1, h2, h3⟩
  | some tok =>
    refine ⟨?_, h2, h3⟩
    exact insertA_allGood _ _ _ h1 (Int.natCast_nonneg _)

theorem stepEnergy_allGood (c : List Char) (label : String) (m : Metrics)
    (h1 : AllGood m.execution_time) (h2 : AllGood m.energy_consumption)
    (h3 : AllGood m.network_usage) :
    AllGood (stepEnergy c label m).1.execution_time ∧
      AllGood (stepEnergy c label m).1.energy_consumption ∧
      AllGood (stepEnergy c label m).1.network_usage := by
  unfold stepEnergy
  cases hE : parseAll (scanEnergy c) with
  | none => exact ⟨h1, h2, h3⟩
  | some qs =>
    refine ⟨h1, ?_, h3⟩
    exact insertA_allGood _ _ _ h2 (sum_good qs (parseAll_good _ qs hE))

theorem stepNetwork_allGood (c : List Char) (label : String) (m : Metrics)
    (h1 : AllGood m.execution_time) (h2 : AllGood m.energy_consumption)
    (h3 : AllGood m.network_usage) :
    AllGood (stepNetwork c label m).1.execution_time ∧
      AllGood (stepNetwork c label m).1.energy_consumption ∧
      AllGood (stepNetwork c label m).1.network_usage := by
  cases hF : findAfter netLit isFloatChar c with
  | none =>
    rw [stepNetwork_skip c label m hF]
    exact ⟨h1, h2, h3⟩
  | some tok =>
    cases hP : parsePyFloat tok with
    | none =>
      rw [stepNetwork_err c label m tok hF hP]
      exact ⟨h1, h2, h3⟩
    | some q =>
      rw [stepNetwork_ok c label m tok q hF hP]
      exact ⟨h1, h2, insertA_allGood _ _ _ h3 (parsePyFloat_good tok q hP)⟩

theorem extract_allGood (c : List Char) (label : String) (m : Metrics)
    (h1 : AllGood m.execution_time) (h2 : AllGood m.energy_consumption)
    (h3 : AllGood m.network_usage) :
    AllGood (extract_metrics c label m).1.execution_time ∧
      AllGood (extract_metrics c label m).1.energy_consumption ∧
      AllGood (extract_metrics c label m).1.network_usage := by
  unfold extract_metrics
  have hT := stepTime_allGood c label m h1 h2 h3
  cases hE : stepEnergy c label (stepTime c label m) with
  | mk m2 e =>
    have hG := stepEnergy_allGood c label (stepTime c label m) hT.1 hT.2.1 hT.2.2
    rw [hE] at hG
    cases e with
    | some err => exact hG
    | none => exact stepNetwork_allGood c label m2 hG.1 hG.2.1 hG.2.2

theorem processFile_allGood (inp : Option (List Char)) (label : String)
    (m : Metrics) (e : Option Err)
    (h1 : AllGood m.execution_time) (h2 : AllGood m.energy_consumption)
    (h3 : AllGood m.network_usage) :
    AllGood (processFile inp label (m, e)).1.execution_time ∧
      AllGood (processFile inp label (m, e)).1.energy_consumption ∧
      AllGood (processFile inp label (m, e)).1.network_usage := by
  cases e with
  | some err => exact ⟨h1, h2, h3⟩
  | none =>
    cases inp with
    | none => exact ⟨h1, h2, h3⟩
    | some c => exact extract_allGood c label m h1 h2 h3

theorem allGood_nil : AllGood [] := by
  intro kv hkv
  exact absurd hkv (List.not_mem_nil kv)

theorem runPipeline_allGood (s l f : Option (List Char)) :
    AllGood (runPipeline s l f).1.execution_time ∧
      AllGood (runPipeline s l f).1.energy_consumption ∧
      AllGood (runPipeline s l f).1.network_usage := by
  unfold runPipeline
  cases hS : processFile s "Simple" (initMetrics, none) with
  | mk m1 e1 =>
    have g1 := processFile_allGood s "Simple" initMetrics none allGood_nil allGood_nil allGood_nil
    rw [hS] at g1
    cases hL : processFile l "Learnable" (m1, e1) with
    | mk m2 e2 =>
      have g2 := processFile_allGood l "Learnable" m1 e1 g1.1 g1.2.1 g1.2.2
      rw [hL] at g2
      exact processFile_allGood f "Full" m2 e2 g2.1 g2.2.1 g2.2.2

/-- C7: when a run completes without error, every numeric value written to
`all_metrics.json` (rendered by `renderNum`, the embedding of `json.dump`'s
number output) parses back under `loadNum` (the embedding of `json.load`'s
number reading) to the structurally identical stored value: integers in
`execution_time` stay integers, floats in `energy_consumption` and
`network_usage` stay floats, with the same numeric value. -/
theorem C7_json_round_trip (s l f : Option (List Char)) (m : Metrics)
    (h : runPipeline s l f = (m, none)) :
    (∀ kv ∈ m.execution_time, loadNum (renderNum kv.2) = kv.2) ∧
      (∀ kv ∈ m.energy_consumption, loadNum (renderNum kv.2) = kv.2) ∧
      (∀ kv ∈ m.network_usage, loadNum (renderNum kv.2) = kv.2) := by
  have hG := runPipeline_allGood s l f
  rw [h] at hG
  exact ⟨fun kv hkv => loadNum_renderNum_good kv.2 (hG.1 kv hkv),
    fun kv hkv => loadNum_renderNum_good kv.2 (hG.2.1 kv hkv),
    fun kv hkv => loadNum_renderNum_good kv.2 (hG.2.2 kv hkv)⟩

/-- Witness for C7 on a concrete run: a Learnable-only input containing
`EXECUTION TIME : 7` stores the integer 7, and its JSON rendering reads
back as the same integer. -/
theorem C7_json_round_trip_witness :
    loadNum (renderNum (PyNum.int 7)) = PyNum.int 7 :=
  (C7_json_round_trip none (some ("EXECUTION TIME : 7".toList)) none
      ⟨[("Learnable", PyNum.int 7)], [("Learnable", PyNum.float (List.sum []))], []⟩
      (by rfl)).1
    ("Learnable", PyNum.int 7) (by decide)
